import Mathlib

/- Verification model of the configuration loader of openwebos/pmlogdaemon.

   The embedding covers:
   - src/src/util.c: mystrcpy, TrimSuffixCaseInsensitive, ParseInt (strtol
     base 0, endptr and errno checks), ParseLevel, ParseSize;
   - src/unnamed/part_001 (config.c): FindOutputByName, GetTokenToSep,
     ParseOutputInit, MakeOutputConf, ParseContextInit, ParseContextData,
     CreateContext, MakeContextConf, ClearConf, ReadConfFile, SetDefaultConf.

   C strings are modelled as NUL-free Lean character lists (the contents of a
   NUL-terminated buffer); C int is modelled as Int with explicit wrap-around
   at 2^31 where the source can overflow.  External library behaviour (glib
   GKeyFile lookups, GTree, libc strtol) is modelled from the libraries'
   documented semantics.  Constants and the few helpers that live in headers
   or files not present under src/ are modelled from the spec and are marked
   as such in their doc comments. -/

/-- NUL character, the C string terminator. -/
def nulChar : Char := Char.ofNat 0

/-- Lowercase conversion of one ASCII character (the effect of strcasecmp /
tolower on the byte values the config loader deals with). -/
def lowerCh (c : Char) : Char :=
  if 'A' ≤ c ∧ c ≤ 'Z' then Char.ofNat (c.toNat + 32) else c

/-- The whitespace characters skipped by strtol (C isspace). -/
def isSpaceCh (c : Char) : Bool :=
  c == ' ' || c == '\t' || c == '\n' || c == '\x0b' || c == '\x0c' || c == '\r'

/-- Value of a character as a digit in the given base (as strtol accepts:
decimal digits plus letters for bases above 10). -/
def digVal? (base : Nat) (c : Char) : Option Nat :=
  let v : Option Nat :=
    if '0' ≤ c ∧ c ≤ '9' then some (c.toNat - 48)
    else if 'a' ≤ c ∧ c ≤ 'z' then some (c.toNat - 87)
    else if 'A' ≤ c ∧ c ≤ 'Z' then some (c.toNat - 55)
    else none
  match v with
  | some d => if d < base then some d else none
  | none => none

/-- LONG_MIN for an LP64 build (the type strtol returns). -/
def longMin : Int := -(2 ^ 63)

/-- LONG_MAX for an LP64 build. -/
def longMax : Int := 2 ^ 63 - 1

/-- Conversion of a C long to a C int: two's-complement wrap-around into
[-2^31, 2^31).  Also models signed int multiplication overflow as gcc
implements it. -/
def int32cast (n : Int) : Int := (n + 2 ^ 31) % 2 ^ 32 - 2 ^ 31

/- ------------------------------------------------------------------ -/
/- src/src/util.c                                                      -/
/- ------------------------------------------------------------------ -/

/-- mystrcpy (src/src/util.c lines 52-85), buffer-level model.  `dst` is the
current contents of the destination buffer (one Char per byte).  The source
does: reject a dst size below 1, write dst[0] = 0, copy
min(strlen(src), dstSize-1) bytes, and NUL-terminate.  `src` is the contents
of the source C string (hence NUL-free). -/
def mystrcpy (dst : List Char) (dstSize : Nat) (src : List Char) : List Char :=
  if dstSize < 1 then dst
  else
    let dst0 := dst.set 0 nulChar
    let srcLen := min src.length (dstSize - 1)
    (src.take srcLen ++ dst0.drop srcLen).set srcLen nulChar

/-- The C string stored in a buffer: the bytes before the first NUL. -/
def cStr (buf : List Char) : List Char := buf.takeWhile (fun c => c ≠ nulChar)

/-- String-level view of mystrcpy: the string stored in the destination after
`mystrcpy dst dstSize src` is `src` truncated to dstSize - 1 characters
(proved below as part of C10).  The parsing model uses this view. -/
def mystrcpyS (dstSize : Nat) (src : List Char) : List Char :=
  src.take (dstSize - 1)

/-- TrimSuffixCaseInsensitive (src/src/util.c lines 321-342).  The source
truncates `s` in place when its tail equals `suffix` modulo case (strcasecmp)
and returns whether it did; the model returns the truncated string on
success. -/
def trimSuffixCI (s suffix : List Char) : Option (List Char) :=
  if s.length < suffix.length then none
  else
    let sSuffix := s.drop (s.length - suffix.length)
    if sSuffix.map lowerCh = suffix.map lowerCh then
      some (s.take (s.length - suffix.length))
    else none

/-- Digit scanning inside strtol: consume digits of `base`, returning the
accumulated value, the number of digits consumed so far and the rest. -/
def takeDigits (base : Nat) : List Char → Nat → Nat → Nat × Nat × List Char
  | [], acc, cnt => (acc, cnt, [])
  | c :: s, acc, cnt =>
    match digVal? base c with
    | some d => takeDigits base s (acc * base + d) (cnt + 1)
    | none => (acc, cnt, c :: s)

/-- Base detection of strtol with base 0 (after sign handling): "0x"/"0X"
followed by a hex digit selects base 16, a leading '0' selects base 8 (the
'0' itself counting as a consumed digit), anything else base 10.  Returns
(value, digits consumed, rest). -/
def parseIntCore (s : List Char) : Nat × Nat × List Char :=
  if s.head? = some '0' then
    let r1 := s.tail
    if r1.head? = some 'x' ∨ r1.head? = some 'X' then
      if (r1.tail.head?.bind (digVal? 16)).isSome then takeDigits 16 r1.tail 0 0
      else (0, 1, r1)
    else takeDigits 8 r1 0 1
  else takeDigits 10 s 0 0

/-- ParseInt (src/src/util.c lines 353-368): strtol with base 0, failing when
no digits were consumed (endptr == valStr), when the string was not fully
consumed (*endptr != 0), or on range error (errno).  The long result is cast
to int. -/
def parseInt (valStr : List Char) : Option Int :=
  let s1 := valStr.dropWhile isSpaceCh
  let sgn : Int := if s1.head? = some '-' then -1 else 1
  let s2 := if s1.head? = some '-' ∨ s1.head? = some '+' then s1.tail else s1
  let r := parseIntCore s2
  if r.2.1 = 0 then none
  else if r.2.2 ≠ [] then none
  else
    let n : Int := sgn * (r.1 : Int)
    if n < longMin ∨ n > longMax then none
    else some (int32cast n)

/-- PmLogStringToLevel (declared in the PmLog library headers, not under
src/).  Modelled from the spec: the named severities map to the syslog codes
0-7; additionally, per the doc comment of ParseLevel in src/src/util.c,
"none" maps to -1 (kPmLogLevel_None). -/
def pmLogStringToLevel (s : String) : Option Int :=
  if s = "none" then some (-1)
  else if s = "emerg" then some 0
  else if s = "alert" then some 1
  else if s = "crit" then some 2
  else if s = "err" then some 3
  else if s = "warning" then some 4
  else if s = "notice" then some 5
  else if s = "info" then some 6
  else if s = "debug" then some 7
  else none

/-- ParseLevel (src/src/util.c lines 382-395): returns whether the name was
recognised; on failure the out-parameter is set to -1. -/
def parseLevel (s : String) : Bool × Int :=
  match pmLogStringToLevel s with
  | some n => (true, n)
  | none => (false, -1)

/-- ParseSize (src/src/util.c lines 408-436): copy the value into a 32-byte
buffer (truncating), strip a K/KB suffix (multiplier 1024), then a M/MB
suffix (the multiplier is overwritten, not combined: 1024*1024), then
ParseInt; the parsed int is multiplied by the multiplier (int arithmetic,
hence the wrap-around cast). -/
def parseSize (valStr : List Char) : Option Int :=
  let s0 := mystrcpyS 32 valStr
  let km : List Char × Int :=
    match trimSuffixCI s0 ['K'] with
    | some t => (t, 1024)
    | none =>
      match trimSuffixCI s0 ['K', 'B'] with
      | some t => (t, 1024)
      | none => (s0, 1)
  let mm : List Char × Int :=
    match trimSuffixCI km.1 ['M'] with
    | some t => (t, 1048576)
    | none =>
      match trimSuffixCI km.1 ['M', 'B'] with
      | some t => (t, 1048576)
      | none => km
  match parseInt mm.1 with
  | none => none
  | some n => some (int32cast (n * mm.2))

/- ------------------------------------------------------------------ -/
/- src/unnamed/part_001 (config.c): data model                         -/
/- ------------------------------------------------------------------ -/

/-- Modelled from the spec: PMLOG_OUTPUT_MAX_NAME_LENGTH (main.h is not under
src/); the spec gives the output name bound as 32 characters. -/
def pmlogOutputMaxNameLength : Nat := 32

/-- Modelled from the spec: PMLOG_MAX_CONTEXT_NAME_LEN; the spec gives the
context name bound as 31 characters. -/
def pmlogMaxContextNameLen : Nat := 31

/-- Modelled from the spec: PMLOG_PROGRAM_MAX_NAME_LENGTH (main.h not under
src/); taken as 31, large enough that the 32-byte rule token buffer is the
binding truncation. -/
def pmlogProgramMaxNameLength : Nat := 31

/-- Modelled from the spec: PMLOG_MAX_NUM_OUTPUTS; the spec says the output
table is small, at most about 8 entries. -/
def pmlogMaxNumOutputs : Nat := 8

/-- Modelled from the spec: PMLOG_CONTEXT_MAX_NUM_RULES = 32 ("bounded to a
small constant, typically 32"). -/
def pmlogContextMaxNumRules : Nat := 32

/-- Modelled from the spec: PMLOG_MIN_LOG_SIZE = 4 KiB. -/
def pmlogMinLogSize : Int := 4096

/-- Modelled from the spec: PMLOG_MAX_LOG_SIZE = 64 MiB. -/
def pmlogMaxLogSize : Int := 67108864

/-- Modelled from the spec: PMLOG_DEFAULT_LOG_SIZE = 1 MiB. -/
def pmlogDefaultLogSize : Int := 1048576

/-- Modelled from the spec: PMLOG_MIN_NUM_ROTATIONS = 1. -/
def pmlogMinNumRotations : Int := 1

/-- Modelled from the spec: PMLOG_MAX_NUM_ROTATIONS = 9. -/
def pmlogMaxNumRotations : Int := 9

/-- Modelled from the spec: PMLOG_DEFAULT_LOG_ROTATIONS = 1. -/
def pmlogDefaultLogRotations : Int := 1

/-- Modelled from the spec: CONF_INT_UNINIT_VALUE, the sentinel that marks a
configuration int not yet set (the source's sentinel convention is -1, which
ParseOutputInit distinguishes from every stored value). -/
def confIntUninit : Int := -1

/-- Modelled from the spec: PMLOG_OUTPUT_STDLOG, the mandatory first output
name. -/
def pmlogOutputStdlog : String := "stdlog"

/-- Modelled from the spec: PMLOG_CONTEXT_GLOBAL, the mandatory first context
name. -/
def pmlogContextGlobal : String := "<global>"

/-- Modelled from the spec: DEFAULT_LOG_FILE_PATH = /var/log/messages. -/
def defaultLogFilePath : String := "/var/log/messages"

/-- PATH_MAX on linux. -/
def pathMax : Nat := 4096

/-- PmLogFile_t: one entry of the g_outputConfs table (the fields config.c
touches: outputName, path, maxSize, rotations). -/
structure PmLogFile where
  outputName : String
  path : String
  maxSize : Int
  rotations : Int
deriving DecidableEq, Repr

/-- The ring buffer configuration stored for a context.  Modelled from the
spec: RBNew lives in the ring-buffer source file, which is not under src/;
per the spec it records the configured byte size and flush level. -/
structure RBuf where
  size : Int
  flushLevel : Int
deriving DecidableEq, Repr

/-- PmLogRule_t: one routing rule of a context (program NULL means any). -/
structure PmLogRule where
  facility : Int
  level : Int
  levelInvert : Bool
  program : Option String
  outputIndex : Nat
  omitOutput : Bool
deriving DecidableEq, Repr

/-- PmLogContextConf_t: one node of the g_contextConfs tree. -/
structure PmLogContextConf where
  contextName : String
  numRules : Nat
  rules : List PmLogRule
  rb : RBuf
deriving DecidableEq, Repr

/-- PmLogParseRule_t (config.c lines 305-323): a rule as parsed, before
conversion (program as a char array, empty meaning any). -/
structure PmLogParseRule where
  facility : Int
  level : Int
  levelInvert : Bool
  program : String
  outputIndex : Nat
  omitOutput : Bool
deriving DecidableEq, Repr

/-- PmLogParseOutput_t (config.c lines 72-79). -/
structure PmLogParseOutput where
  name : String
  File : String
  MaxSize : Int
  Rotations : Int
deriving DecidableEq, Repr

/-- PmLogParseContext_t (config.c lines 326-334). -/
structure PmLogParseContext where
  name : String
  numRules : Nat
  bufferSize : Int
  flushLevel : Int
  rules : List PmLogParseRule
deriving DecidableEq, Repr

/-- The global configuration state: g_outputConfs[0..g_numOutputs) as a list,
and g_contextConfs, a GTree pointer that may be NULL (`none`).  g_numContexts
is tracked separately because the source assigns it from g_tree_nnodes. -/
structure ConfState where
  outputs : List PmLogFile
  contextTree : Option (List (String × PmLogContextConf))
  numContexts : Nat
deriving DecidableEq, Repr

/- ------------------------------------------------------------------ -/
/- glib models                                                         -/
/- ------------------------------------------------------------------ -/

/-- Association-list lookup, first match (used for GKeyFile keys and the
GTree contents). -/
def keyLookup : List (String × String) → String → Option String
  | [], _ => none
  | (k, v) :: r, key => if k = key then some v else keyLookup r key

/-- Lookup in the context tree's contents. -/
def ctxLookup : List (String × PmLogContextConf) → String → Option PmLogContextConf
  | [], _ => none
  | (k, v) :: r, key => if k = key then some v else ctxLookup r key

/-- g_tree_lookup, modelled from the glib documentation; on a NULL tree the
checked precondition fails and NULL is returned. -/
def gTreeLookup (t : Option (List (String × PmLogContextConf))) (k : String) :
    Option PmLogContextConf :=
  match t with
  | none => none
  | some l => ctxLookup l k

/-- g_tree_insert, modelled from the glib documentation: replace the value if
the key exists, insert otherwise; on a NULL tree the checked precondition
fails and nothing happens. -/
def gTreeInsert (t : Option (List (String × PmLogContextConf))) (k : String)
    (c : PmLogContextConf) : Option (List (String × PmLogContextConf)) :=
  match t with
  | none => none
  | some l =>
    if (ctxLookup l k).isSome then
      some (l.map fun p => if p.1 = k then (k, c) else p)
    else some (l ++ [(k, c)])

/-- g_tree_nnodes; 0 on a NULL tree. -/
def gTreeNnodes (t : Option (List (String × PmLogContextConf))) : Nat :=
  match t with
  | none => 0
  | some l => l.length

/-- Mutation of the tree node holding key `k` through a pointer obtained from
g_tree_lookup (the C code updates the looked-up PmLogContextConf_t in
place). -/
def gTreeWrite (t : Option (List (String × PmLogContextConf))) (k : String)
    (f : PmLogContextConf → PmLogContextConf) :
    Option (List (String × PmLogContextConf)) :=
  match t with
  | none => none
  | some l => some (l.map fun p => if p.1 = k then (k, f p.2) else p)

/-- g_key_file_get_integer's value parsing, modelled from the glib
documentation: a decimal integer (optional sign), the whole string, fitting
in a gint; anything else is G_KEY_FILE_ERROR_INVALID_VALUE. -/
def gkfGetInteger (v : String) : Option Int :=
  let s := v.data
  let sgn : Int := if s.head? = some '-' then -1 else 1
  let s2 := if s.head? = some '-' ∨ s.head? = some '+' then s.tail else s
  let r := takeDigits 10 s2 0 0
  if r.2.1 = 0 then none
  else if r.2.2 ≠ [] then none
  else
    let n := sgn * (r.1 : Int)
    if n < -(2 ^ 31) ∨ n ≥ 2 ^ 31 then none else some n

/- ------------------------------------------------------------------ -/
/- src/unnamed/part_001 (config.c): functions                          -/
/- ------------------------------------------------------------------ -/

/-- Helper for FindOutputByName: linear scan of g_outputConfs returning the
index of the first entry with the given name. -/
def findOutputAux (name : String) : Nat → List PmLogFile → Option Nat
  | _, [] => none
  | i, o :: r => if o.outputName = name then some i else findOutputAux name (i + 1) r

/-- FindOutputByName (config.c lines 91-121): index of the named output in
g_outputConfs, or none (-1 / NULL in the source). -/
def findOutputByName (outs : List PmLogFile) (name : String) : Option Nat :=
  findOutputAux name 0 outs

/-- Replace the entry at an index (array element update). -/
def updateAt (l : List PmLogFile) (i : Nat) (f : PmLogFile → PmLogFile) : List PmLogFile :=
  match l, i with
  | [], _ => []
  | o :: r, 0 => f o :: r
  | o :: r, j + 1 => o :: updateAt r j f

/-- GetTokenToSep (config.c lines 146-176) without the buffer bound: consume
characters until one of `terms` (or NUL, or the end) is hit; return the
token, the terminator (NUL at end of string) and the rest.  When the
terminator is NUL the source leaves the cursor on it. -/
def getTokenToSepRaw (terms : List Char) : List Char → List Char × Char × List Char
  | [] => ([], nulChar, [])
  | c :: s =>
    if c = nulChar then ([], nulChar, c :: s)
    else if c ∈ terms then ([], c, s)
    else
      let r := getTokenToSepRaw terms s
      (c :: r.1, r.2.1, r.2.2)

/-- GetTokenToSep with the token buffer bound: the source keeps appending
only while tokenLen + 1 < tokenBuffSize but still scans to the terminator, so
the token is the raw token truncated to buffSize - 1 characters. -/
def getTokenToSep (terms : List Char) (buffSize : Nat) (s : List Char) :
    List Char × Char × List Char :=
  let r := getTokenToSepRaw terms s
  (r.1.take (buffSize - 1), r.2.1, r.2.2)

/-- ParseOutputInit (config.c lines 187-209): when this is the first output
the name must be "stdlog", else the function reports failure, leaving the
struct as memset left it (all zero, so MaxSize/Rotations are 0, NOT the
uninit sentinel).  On success the name is copied (mystrcpy, buffer
PMLOG_OUTPUT_MAX_NAME_LENGTH + 1) and MaxSize/Rotations are set to the
uninit sentinel. -/
def parseOutputInit (numOutputs : Nat) (name : String) : Bool × PmLogParseOutput :=
  if numOutputs = 0 ∧ name ≠ pmlogOutputStdlog then
    (false, ⟨"", "", 0, 0⟩)
  else
    (true, ⟨⟨mystrcpyS (pmlogOutputMaxNameLength + 1) name.data⟩, "",
      confIntUninit, confIntUninit⟩)

/-- MakeOutputConf (config.c lines 225-291).  Fails when File is empty or not
absolute.  A new table entry is memset to zero, then only outputName and path
are filled in.  The MaxSize clamping writes only the local parse struct — the
stored maxSize is never assigned.  rotations is stored only in the
defaulting branch (Rotations unset); the clamped explicit value is likewise
never copied to the table. -/
def makeOutputConf (outs : List PmLogFile) (po : PmLogParseOutput) :
    Option (List PmLogFile) :=
  match po.File.data.head? with
  | none => none
  | some c =>
    if c ≠ '/' then none
    else
      match findOutputByName outs po.name with
      | some i =>
        if po.Rotations = confIntUninit then
          some (updateAt outs i fun o => { o with rotations := pmlogDefaultLogRotations })
        else some outs
      | none =>
        if outs.length ≥ pmlogMaxNumOutputs then none
        else
          let conf : PmLogFile :=
            { outputName := po.name, path := po.File, maxSize := 0, rotations := 0 }
          let outs2 := outs ++ [conf]
          if po.Rotations = confIntUninit then
            some (updateAt outs2 outs.length fun o =>
              { o with rotations := pmlogDefaultLogRotations })
          else some outs2

/-- ParseContextInit (config.c lines 347-368): when this is the first context
the name must be "<global>", else failure is reported with the struct left
all zero.  On success the name is copied (buffer
PMLOG_MAX_CONTEXT_NAME_LEN + 1). -/
def parseContextInit (numContexts : Nat) (name : String) : Bool × PmLogParseContext :=
  if numContexts = 0 ∧ name ≠ pmlogContextGlobal then
    (false, ⟨"", 0, 0, 0, []⟩)
  else
    (true, ⟨⟨mystrcpyS (pmlogMaxContextNameLen + 1) name.data⟩, 0, 0, 0, []⟩)

/-- ParseRuleFacility.  Modelled from the spec (the function lives in a file
not under src/): the literal token "*" means any (-1); otherwise the
canonical syslog facility names map to their syslog.h codes. -/
def parseRuleFacility (s : String) : Option Int :=
  if s = "*" then some (-1)
  else if s = "kern" then some 0
  else if s = "user" then some 8
  else if s = "mail" then some 16
  else if s = "daemon" then some 24
  else if s = "auth" then some 32
  else if s = "syslog" then some 40
  else if s = "lpr" then some 48
  else if s = "news" then some 56
  else if s = "uucp" then some 64
  else if s = "cron" then some 72
  else if s = "authpriv" then some 80
  else if s = "ftp" then some 88
  else if s = "local0" then some 128
  else if s = "local1" then some 136
  else if s = "local2" then some 144
  else if s = "local3" then some 152
  else if s = "local4" then some 160
  else if s = "local5" then some 168
  else if s = "local6" then some 176
  else if s = "local7" then some 184
  else none

/-- ParseRuleLevel.  Modelled from the spec: "*" means any (-1); otherwise a
named severity as accepted by PmLogStringToLevel. -/
def parseRuleLevel (s : String) : Option Int :=
  if s = "*" then some (-1) else pmLogStringToLevel s

/-- The rule token separators ".," of ParseContextData. -/
def dotComma : List Char := ['.', ',']

/-- The level clause of ParseContextData (config.c lines 407-428): when the
facility's terminator was '.', an optional '!' sets levelInvert and the next
token must parse as a level; otherwise level is -1 with levelInvert false.
Returns (level, levelInvert, terminator, rest). -/
def levelClause (sep : Char) (s : List Char) : Option (Int × Bool × Char × List Char) :=
  if sep = '.' then
    let li : Bool × List Char := if s.head? = some '!' then (true, s.tail) else (false, s)
    let r := getTokenToSep dotComma 32 li.2
    match parseRuleLevel ⟨r.1⟩ with
    | none => none
    | some lvl => some (lvl, li.1, r.2.1, r.2.2)
  else some (-1, false, sep, s)

/-- The program clause of ParseContextData (config.c lines 431-439): when the
level's terminator was '.', the next token is copied into the program buffer
(mystrcpy, bound PMLOG_PROGRAM_MAX_NAME_LENGTH + 1); otherwise the program is
empty.  Returns (program, terminator, rest). -/
def programClause (sep : Char) (s : List Char) : List Char × Char × List Char :=
  if sep = '.' then
    let r := getTokenToSep dotComma 32 s
    (mystrcpyS (pmlogProgramMaxNameLength + 1) r.1, r.2.1, r.2.2)
  else ([], sep, s)

/-- The output clause of ParseContextData (config.c lines 448-466): an
optional leading '-' sets omitOutput, then the output-name token must resolve
through FindOutputByName and must be followed by nothing (terminator NUL).
Returns (outputIndex, omitOutput). -/
def outClause (outs : List PmLogFile) (s : List Char) : Option (Nat × Bool) :=
  let om : Bool × List Char :=
    if s.head? = some '-' then (true, s.tail) else (false, s)
  let r := getTokenToSep dotComma 32 om.2
  match findOutputByName outs ⟨r.1⟩ with
  | none => none
  | some idx =>
    if r.2.1 ≠ nulChar then none
    else some (idx, om.1)

/-- ParseContextData (config.c lines 380-471) on one rule value
<facility>[.[!]<level>[.<program>]],[-]<outputName>; the token buffer is 32
bytes.  The parsed rule is returned instead of being written into
rules[numRules] (the caller appends it and increments numRules on
success). -/
def parseContextData (outs : List PmLogFile) (val : List Char) :
    Option PmLogParseRule :=
  let r1 := getTokenToSep dotComma 32 val
  match parseRuleFacility ⟨r1.1⟩ with
  | none => none
  | some fac =>
    match levelClause r1.2.1 r1.2.2 with
    | none => none
    | some lc =>
      let pc := programClause lc.2.2.1 lc.2.2.2
      if pc.2.1 ≠ ',' then none
      else
        match outClause outs pc.2.2 with
        | none => none
        | some ob => some ⟨fac, lc.1, lc.2.1, ⟨pc.1⟩, ob.1, ob.2⟩

/-- CreateContext (config.c lines 474-486): allocate a zeroed context conf,
insert it into g_contextConfs and refresh g_numContexts from g_tree_nnodes.
On a NULL tree the insert is a checked no-op, so the new conf stays detached
and g_numContexts becomes 0. -/
def createContext (st : ConfState) (name : String) : ConfState × PmLogContextConf :=
  let conf : PmLogContextConf := ⟨name, 0, [], ⟨0, 0⟩⟩
  let t2 := gTreeInsert st.contextTree name conf
  ({ st with contextTree := t2, numContexts := gTreeNnodes t2 }, conf)

/-- Conversion of a parsed rule into a stored rule (MakeContextConf's copy
loop, config.c lines 515-533): an empty program becomes NULL. -/
def ruleOf (r : PmLogParseRule) : PmLogRule :=
  ⟨r.facility, r.level, r.levelInvert,
    (if r.program = "" then none else some r.program), r.outputIndex, r.omitOutput⟩

/-- MakeContextConf (config.c lines 500-539): look the context up, creating
it if needed, then overwrite its rules, numRules and ring buffer
(RBNew(bufferSize, flushLevel)) through the obtained pointer.  Always
returns true in the source. -/
def makeContextConf (st : ConfState) (pc : PmLogParseContext) : ConfState :=
  let fill : PmLogContextConf → PmLogContextConf := fun c =>
    { c with numRules := pc.numRules,
             rules := pc.rules.map ruleOf,
             rb := ⟨pc.bufferSize, pc.flushLevel⟩ }
  match gTreeLookup st.contextTree pc.name with
  | some _ => { st with contextTree := gTreeWrite st.contextTree pc.name fill }
  | none =>
    let r := createContext st pc.name
    { r.1 with contextTree := gTreeWrite r.1.contextTree pc.name fill }

/-- ClearConf (config.c lines 547-565): free the output strings, destroy the
context tree, zero the counts; g_contextConfs is left NULL. -/
def clearConf (_st : ConfState) : ConfState := ⟨[], none, 0⟩

/-- SetDefaultConf (config.c lines 747-782): clear everything, install the
stdlog output at index 0 with the default path, size and rotations, then
look up / create the "<global>" context and give it the single catch-all
rule *.*,stdlog.  Because ClearConf has just set g_contextConfs to NULL,
CreateContext's insert is a checked no-op (see createContext). -/
def setDefaultConf (st : ConfState) : ConfState :=
  let st0 := clearConf st
  let st1 := { st0 with outputs :=
    [⟨pmlogOutputStdlog, defaultLogFilePath, pmlogDefaultLogSize,
      pmlogDefaultLogRotations⟩] }
  let st2 :=
    match gTreeLookup st1.contextTree pmlogContextGlobal with
    | some _ => st1
    | none => (createContext st1 pmlogContextGlobal).1
  let fillDef : PmLogContextConf → PmLogContextConf := fun c =>
    { c with numRules := 1, rules := [⟨-1, -1, false, none, 0, false⟩] }
  { st2 with contextTree := gTreeWrite st2.contextTree pmlogContextGlobal fillDef }

/- ------------------------------------------------------------------ -/
/- ReadConfFile (config.c lines 578-741)                               -/
/- ------------------------------------------------------------------ -/

/-- One group of the parsed configuration file: the group name (as returned
by g_key_file_get_groups) and its key/value pairs. -/
def ConfGroup := String × List (String × String)

/-- A parsed configuration file (GKeyFile contents). -/
def ConfKeyFile := List (String × List (String × String))

/-- The key Rule<n> built by mysprintf "Rule%d" (the 10-byte buffer never
truncates: the largest key is "Rule32"). -/
def ruleKey (n : Nat) : String := "Rule" ++ toString n

/-- The rule-reading loop of ReadConfFile (config.c lines 677-694): for j
from 0, look up Rule(j+1); a missing key ends the loop (not an error), a
value that ParseContextData rejects ends it with retVal = false, a parsed
rule is appended (rules[numRules] filled, numRules incremented).  `fuel`
counts the remaining iterations, starting at PMLOG_CONTEXT_MAX_NUM_RULES. -/
def ruleLoop (kvs : List (String × String)) (outs : List PmLogFile) :
    Nat → Nat → PmLogParseContext → PmLogParseContext × Bool
  | 0, _, pc => (pc, true)
  | fuel + 1, j, pc =>
    match keyLookup kvs (ruleKey (j + 1)) with
    | none => (pc, true)
    | some v =>
      match parseContextData outs v.data with
      | none => (pc, false)
      | some r =>
        ruleLoop kvs outs fuel (j + 1)
          { pc with rules := pc.rules ++ [r], numRules := pc.numRules + 1 }

/-- The key reading of an [OUTPUT=...] group (config.c lines 625-662): the
result of ParseOutputInit is discarded exactly as the source ignores it
(line 627); File is copied with strncpy(.., PATH_MAX - 1); a MaxSize value
is stored only when ParseSize accepts it (a bad value is only warned about);
Rotations comes from g_key_file_get_integer.  The second component reports
whether the Rotations lookup errored, in which case the source frees the
GError without resetting the pointer, leaving it dangling for the next
context group's BufferSize lookup (see contextParse). -/
def outputParse (numOutputs : Nat) (name : String) (kvs : List (String × String)) :
    PmLogParseOutput × Bool :=
  let po0 := (parseOutputInit numOutputs name).2
  let po1 :=
    match keyLookup kvs "File" with
    | some v => { po0 with File := ⟨v.data.take (pathMax - 1)⟩ }
    | none => po0
  let po2 :=
    match keyLookup kvs "MaxSize" with
    | some v =>
      match parseSize v.data with
      | some n => { po1 with MaxSize := n }
      | none => po1
    | none => po1
  let rotRes := (keyLookup kvs "Rotations").bind (fun v => gkfGetInteger v)
  let po3 :=
    match rotRes with
    | some n => { po2 with Rotations := n }
    | none => po2
  (po3, rotRes.isNone)

/-- The BufferSize reading of a context group (config.c lines 696-707):
skipped entirely when the stale freed GError from a preceding output group's
failed Rotations lookup is still set (the source's missing gerror reset);
otherwise a present value goes through ParseSize, whose failure clears
retVal without stopping the group. -/
def bufferSizeStep (kvs : List (String × String)) (dang : Bool)
    (pc : PmLogParseContext) : PmLogParseContext × Bool :=
  if dang then (pc, true)
  else
    match keyLookup kvs "BufferSize" with
    | some v =>
      match parseSize v.data with
      | some n => ({ pc with bufferSize := n }, true)
      | none => (pc, false)
    | none => (pc, true)

/-- The FlushLevel reading of a context group (config.c lines 709-720): a
present value goes through ParseLevel, which stores -1 and clears retVal
when the name is unrecognised. -/
def flushLevelStep (kvs : List (String × String)) (pc : PmLogParseContext) :
    PmLogParseContext × Bool :=
  match keyLookup kvs "FlushLevel" with
  | some v =>
    match parseLevel v with
    | (ok, n) => ({ pc with flushLevel := n }, ok)
  | none => (pc, true)

/-- The key reading of a [CONTEXT=...] group (config.c lines 671-720): the
result of ParseContextInit is discarded exactly as the source ignores it
(line 673); then the rules (via ruleLoop), then BufferSize, then FlushLevel.
Returns the filled parse struct and this group's success flag. -/
def contextParse (outs : List PmLogFile) (numContexts : Nat) (name : String)
    (kvs : List (String × String)) (dang : Bool) : PmLogParseContext × Bool :=
  let pc0 := (parseContextInit numContexts name).2
  let rl := ruleLoop kvs outs pmlogContextMaxNumRules 0 pc0
  let bs := bufferSizeStep kvs dang rl.1
  let fl := flushLevelStep kvs bs.1
  (fl.1, rl.2 && bs.2 && fl.2)

/-- One iteration of the group loop of ReadConfFile (see the comments on
outputParse and contextParse).  Returns (new state, this group's success,
outer-loop break, GError dangling). -/
def processGroup (st : ConfState) (dang : Bool) (g : ConfGroup) :
    ConfState × Bool × Bool × Bool :=
  let gname := g.1
  if ("OUTPUT=".data).isPrefixOf gname.data then
    let pr := outputParse st.outputs.length ⟨gname.data.drop 7⟩ g.2
    match makeOutputConf st.outputs pr.1 with
    | some outs => ({ st with outputs := outs }, true, false, pr.2)
    | none => (st, false, true, pr.2)
  else if ("CONTEXT=".data).isPrefixOf gname.data then
    let cp := contextParse st.outputs st.numContexts ⟨gname.data.drop 8⟩ g.2 dang
    (makeContextConf st cp.1, cp.2, false, false)
  else (st, true, false, dang)

/-- The group loop of ReadConfFile: retVal starts true and is only ever
cleared; a break (failed MakeOutputConf) stops the loop.  Returns
(retVal, state, dangling GError, broke). -/
def processGroups : ConfState → Bool → Bool → List (String × List (String × String)) →
    Bool × ConfState × Bool × Bool
  | st, rv, dang, [] => (rv, st, dang, false)
  | st, rv, dang, g :: gs =>
    let r := processGroup st dang g
    if r.2.2.1 then (rv && r.2.1, r.1, r.2.2.2, true)
    else processGroups r.1 (rv && r.2.1) r.2.2.2 gs

/-- ReadConfFile (config.c lines 578-741) from the parsed key file.
Modelled from the spec: the caller (main.c, not under src/) has created the
empty output table and an empty (non-NULL) g_contextConfs tree before the
load; the g_key_file_load_from_file step itself (file I/O and syntax) is
glib and outside the model, which starts from the parsed group list. -/
def readConfFile (kf : List (String × List (String × String))) : Bool × ConfState :=
  let r := processGroups ⟨[], some [], 0⟩ true false kf
  (r.1, r.2.1)

/- ------------------------------------------------------------------ -/
/- Auxiliary definitions for the claim statements                      -/
/- ------------------------------------------------------------------ -/

/-- The character of a decimal digit. -/
def digitCh (d : Nat) : Char := Char.ofNat (48 + d)

/-- The positional value of a digit string (base `base`), starting from
`acc`. -/
def digitsVal (base : Nat) (acc : Nat) (ds : List Char) : Nat :=
  ds.foldl (fun a c => a * base + ((digVal? base c).getD 0)) acc

/-- The names of the loaded outputs, in table order. -/
def outNames (outs : List PmLogFile) : List String := outs.map (fun o => o.outputName)

/-- The keys of the context tree (empty for a NULL tree). -/
def ctxKeys (t : Option (List (String × PmLogContextConf))) : List String :=
  match t with
  | none => []
  | some l => l.map (fun p => p.1)

/-- A group's BufferSize value, when present and parseable, is nonnegative
(hypothesis of the amended claim C7). -/
def bsOkPred (kvs : List (String × String)) : Prop :=
  match keyLookup kvs "BufferSize" with
  | some v =>
    match parseSize v.data with
    | some n => 0 ≤ n
    | none => True
  | none => True

instance (kvs : List (String × String)) : Decidable (bsOkPred kvs) := by
  unfold bsOkPred
  cases keyLookup kvs "BufferSize" with
  | none => exact inferInstanceAs (Decidable True)
  | some v =>
    dsimp only
    cases parseSize v.data with
    | none => exact inferInstanceAs (Decidable True)
    | some n => exact inferInstanceAs (Decidable (0 ≤ n))

/-- A group's FlushLevel value, when present, names one of the eight syslog
severities (hypothesis of the amended claim C7). -/
def flOkPred (kvs : List (String × String)) : Prop :=
  match keyLookup kvs "FlushLevel" with
  | some v =>
    match pmLogStringToLevel v with
    | some l => 0 ≤ l ∧ l ≤ 7
    | none => False
  | none => True

instance (kvs : List (String × String)) : Decidable (flOkPred kvs) := by
  unfold flOkPred
  cases keyLookup kvs "FlushLevel" with
  | none => exact inferInstanceAs (Decidable True)
  | some v =>
    dsimp only
    cases pmLogStringToLevel v with
    | none => exact inferInstanceAs (Decidable False)
    | some l => exact inferInstanceAs (Decidable (0 ≤ l ∧ l ≤ 7))

/-- A well-formed rule token: short enough for the 32-byte token buffer and
free of the separators '.' and ',' and of NUL. -/
def tokOk (t : List Char) : Prop :=
  t.length ≤ 31 ∧ ∀ c ∈ t, c ≠ '.' ∧ c ≠ ',' ∧ c ≠ nulChar

instance (t : List Char) : Decidable (tokOk t) := by
  unfold tokOk
  infer_instance

/- ------------------------------------------------------------------ -/
/- Claims                                                              -/
/- ------------------------------------------------------------------ -/

/-- C1: the claim says a file whose first [OUTPUT=...] group does not name
stdlog, or whose first [CONTEXT=...] group does not name <global>, is
rejected (ReadConfFile returns false).  The code contradicts this:
ReadConfFile ignores the results of ParseOutputInit and ParseContextInit
(config.c lines 627 and 673), so both loads below succeed — the first with
an output whose stored name is the empty string left by the failed init. -/
theorem C1_wrong_first_group_is_accepted :
    (readConfFile
      [("OUTPUT=notstdlog", [("File", "/tmp/x"), ("MaxSize", "8K"), ("Rotations", "2")])]).1
      = true
    ∧ (readConfFile
      [("OUTPUT=notstdlog", [("File", "/tmp/x"), ("MaxSize", "8K"), ("Rotations", "2")])]).2.outputs
      = [⟨"", "/tmp/x", 0, 0⟩]
    ∧ (readConfFile
      [("OUTPUT=stdlog", [("File", "/var/log/messages"), ("Rotations", "1")]),
       ("CONTEXT=notglobal", [("Rule1", "*.*,stdlog")])]).1 = true := by
  refine ⟨?_, ?_, ?_⟩ <;> decide

/-- C2: the claim says every accepted output stores a max size in
[4096, 67108864] and rotations in [1, 9], with out-of-range values clamped.
The code contradicts this: MakeOutputConf clamps only the local parse struct
and never assigns maxSize to the table entry at all, and assigns rotations
only when Rotations was absent (config.c lines 265-289), so an output loaded
with MaxSize=1M and Rotations=2 stores maxSize = 0 and rotations = 0. -/
theorem C2_clamped_values_never_stored :
    readConfFile
      [("OUTPUT=stdlog", [("File", "/var/log/messages"), ("MaxSize", "1M"), ("Rotations", "2")])]
      = (true, ⟨[⟨"stdlog", "/var/log/messages", 0, 0⟩], some [], 0⟩) := by
  decide

/-- C3: the claim says SetDefaultConf leaves one stdlog output at index 0 and
a <global> context with one catch-all rule, never leaving the tables empty.
The output half holds, but ClearConf has just destroyed g_contextConfs and
set it to NULL (config.c lines 557-564), so CreateContext's g_tree_insert is
a checked no-op: the context table stays empty (g_numContexts = 0) and no
<global> context is stored, whatever the prior state was. -/
theorem C3_setDefaultConf_context_table_empty (st : ConfState) :
    (setDefaultConf st).outputs
        = [⟨pmlogOutputStdlog, defaultLogFilePath, pmlogDefaultLogSize,
            pmlogDefaultLogRotations⟩]
    ∧ (setDefaultConf st).contextTree = none
    ∧ (setDefaultConf st).numContexts = 0
    ∧ gTreeLookup (setDefaultConf st).contextTree pmlogContextGlobal = none := by
  exact ⟨rfl, rfl, rfl, rfl⟩

/-- C7 counterexample: the claim says a loaded context's ring buffer has
size ≥ 0 and a valid flush level.  The loader accepts BufferSize=-4 (ParseSize
parses negative integers and nothing checks the sign, config.c lines
696-707) and FlushLevel=none (ParseLevel maps "none" to -1), and stores
exactly those values. -/
theorem C7_negative_buffer_size_accepted :
    (readConfFile
      [("OUTPUT=stdlog", [("File", "/var/log/messages"), ("MaxSize", "1M"), ("Rotations", "1")]),
       ("CONTEXT=<global>",
        [("Rule1", "*.*,stdlog"), ("BufferSize", "-4"), ("FlushLevel", "none")])]).1 = true
    ∧ (gTreeLookup
        (readConfFile
          [("OUTPUT=stdlog", [("File", "/var/log/messages"), ("MaxSize", "1M"), ("Rotations", "1")]),
           ("CONTEXT=<global>",
            [("Rule1", "*.*,stdlog"), ("BufferSize", "-4"), ("FlushLevel", "none")])]).2.contextTree
        pmlogContextGlobal).map (fun c => c.rb) = some ⟨-4, -1⟩ := by
  refine ⟨?_, ?_⟩ <;> decide

/- ------------------------------------------------------------------ -/
/- Token-scanning lemmas (GetTokenToSep)                               -/
/- ------------------------------------------------------------------ -/

theorem tokOk_not_term {t : List Char} (ht : tokOk t) :
    ∀ c ∈ t, ¬c ∈ dotComma ∧ c ≠ nulChar := by
  intro c hc
  have h := ht.2 c hc
  constructor
  · intro hmem
    have hor : c = '.' ∨ c = ',' := by simpa [dotComma] using hmem
    rcases hor with rfl | rfl
    · exact h.1 rfl
    · exact h.2.1 rfl
  · exact h.2.2

theorem getRaw_sep (terms : List Char) (t : List Char)
    (ht : ∀ c ∈ t, ¬c ∈ terms ∧ c ≠ nulChar) (c : Char) (hc : c ∈ terms)
    (hcn : c ≠ nulChar) (rest : List Char) :
    getTokenToSepRaw terms (t ++ c :: rest) = (t, c, rest) := by
  induction t with
  | nil => simp [getTokenToSepRaw, hc, hcn]
  | cons a t ih =>
    have ha := ht a (by simp)
    have ht' : ∀ x ∈ t, ¬x ∈ terms ∧ x ≠ nulChar := fun x hx => ht x (by simp [hx])
    simp [getTokenToSepRaw, ha.1, ha.2, ih ht']

theorem getRaw_end (terms : List Char) (t : List Char)
    (ht : ∀ c ∈ t, ¬c ∈ terms ∧ c ≠ nulChar) :
    getTokenToSepRaw terms t = (t, nulChar, []) := by
  induction t with
  | nil => simp [getTokenToSepRaw]
  | cons a t ih =>
    have ha := ht a (by simp)
    have ht' : ∀ x ∈ t, ¬x ∈ terms ∧ x ≠ nulChar := fun x hx => ht x (by simp [hx])
    simp [getTokenToSepRaw, ha.1, ha.2, ih ht']

theorem gtts_sep (t : List Char) (ht : tokOk t) (c : Char)
    (hc : c = '.' ∨ c = ',') (rest : List Char) :
    getTokenToSep dotComma 32 (t ++ c :: rest) = (t, c, rest) := by
  have hcm : c ∈ dotComma := by rcases hc with rfl | rfl <;> simp [dotComma]
  have hcn : c ≠ nulChar := by rcases hc with rfl | rfl <;> decide
  simp [getTokenToSep, getRaw_sep dotComma t (tokOk_not_term ht) c hcm hcn rest,
    List.take_of_length_le ht.1]

theorem gtts_end (t : List Char) (ht : tokOk t) :
    getTokenToSep dotComma 32 t = (t, nulChar, []) := by
  simp [getTokenToSep, getRaw_end dotComma t (tokOk_not_term ht),
    List.take_of_length_le ht.1]

/- Clause lemmas for ParseContextData. -/

theorem levelClause_absent (sep : Char) (s : List Char) (h : sep ≠ '.') :
    levelClause sep s = some (-1, false, sep, s) := by
  simp [levelClause, h]

theorem levelClause_sep (ib : Bool) (ltok : List Char) (lvl : Int)
    (c : Char) (rest : List Char)
    (hl : parseRuleLevel ⟨ltok⟩ = some lvl) (hlt : tokOk ltok)
    (hlb : ib = false → ltok.head? ≠ some '!') (hc : c = '.' ∨ c = ',') :
    levelClause '.' ((if ib then ['!'] else []) ++ (ltok ++ c :: rest))
      = some (lvl, ib, c, rest) := by
  cases ib with
  | true =>
    simp [levelClause, gtts_sep ltok hlt c hc rest, hl]
  | false =>
    have hh2 : ¬(ltok.head? = some '!' ∨ (ltok = [] ∧ c = '!')) := by
      rintro (h1 | ⟨rfl, rfl⟩)
      · exact hlb rfl h1
      · rcases hc with h | h <;> exact absurd h (by decide)
    simp [levelClause, hh2, gtts_sep ltok hlt c hc rest, hl]

theorem programClause_absent (sep : Char) (s : List Char) (h : sep ≠ '.') :
    programClause sep s = ([], sep, s) := by
  simp [programClause, h]

theorem programClause_sep (ptok : List Char) (c : Char) (rest : List Char)
    (hpt : tokOk ptok) (hc : c = '.' ∨ c = ',') :
    programClause '.' (ptok ++ c :: rest) = (ptok, c, rest) := by
  simp [programClause, gtts_sep ptok hpt c hc rest, mystrcpyS,
    pmlogProgramMaxNameLength, List.take_of_length_le hpt.1]

theorem outClause_spec (outs : List PmLogFile) (otok : List Char) (db : Bool)
    (hot : tokOk otok) (hob : db = false → otok.head? ≠ some '-') :
    outClause outs ((if db then ['-'] else []) ++ otok)
      = (findOutputByName outs ⟨otok⟩).map (fun i => (i, db)) := by
  cases db with
  | true =>
    simp only [if_pos trivial, List.cons_append, List.nil_append]
    simp [outClause, gtts_end otok hot]
    cases h : findOutputByName outs ⟨otok⟩ <;> simp [h, nulChar]
  | false =>
    have hh : ¬otok.head? = some '-' := hob rfl
    simp only [if_neg (by decide : ¬(false = true)), List.nil_append]
    simp [outClause, hh, gtts_end otok hot]
    cases h : findOutputByName outs ⟨otok⟩ <;> simp [h, nulChar]

/- Shape lemmas: ParseContextData on the three forms of the rule grammar
   <facility>[.[!]<level>[.<program>]],[-]<outputName>, with the output
   lookup left symbolic (shared by C4 and C6). -/

theorem pcd_facility_only (outs : List PmLogFile) (ftok otok : List Char)
    (fac : Int) (db : Bool)
    (hf : parseRuleFacility ⟨ftok⟩ = some fac) (hft : tokOk ftok)
    (hot : tokOk otok) (hob : db = false → otok.head? ≠ some '-') :
    parseContextData outs (ftok ++ ',' :: ((if db then ['-'] else []) ++ otok))
      = (findOutputByName outs ⟨otok⟩).map
          (fun i => (⟨fac, -1, false, "", i, db⟩ : PmLogParseRule)) := by
  simp only [parseContextData, gtts_sep ftok hft ',' (Or.inr rfl), hf,
    levelClause_absent ',' _ (by decide), programClause_absent ',' _ (by decide),
    outClause_spec outs otok db hot hob]
  cases h : findOutputByName outs ⟨otok⟩ <;> simp [h]

theorem pcd_facility_level (outs : List PmLogFile) (ftok ltok otok : List Char)
    (fac lvl : Int) (ib db : Bool)
    (hf : parseRuleFacility ⟨ftok⟩ = some fac) (hft : tokOk ftok)
    (hl : parseRuleLevel ⟨ltok⟩ = some lvl) (hlt : tokOk ltok)
    (hlb : ib = false → ltok.head? ≠ some '!')
    (hot : tokOk otok) (hob : db = false → otok.head? ≠ some '-') :
    parseContextData outs
      (ftok ++ '.' :: ((if ib then ['!'] else [])
        ++ (ltok ++ ',' :: ((if db then ['-'] else []) ++ otok))))
      = (findOutputByName outs ⟨otok⟩).map
          (fun i => (⟨fac, lvl, ib, "", i, db⟩ : PmLogParseRule)) := by
  simp only [parseContextData, gtts_sep ftok hft '.' (Or.inl rfl), hf,
    levelClause_sep ib ltok lvl ',' _ hl hlt hlb (Or.inr rfl),
    programClause_absent ',' _ (by decide),
    outClause_spec outs otok db hot hob]
  cases h : findOutputByName outs ⟨otok⟩ <;> simp [h]

theorem pcd_full (outs : List PmLogFile) (ftok ltok ptok otok : List Char)
    (fac lvl : Int) (ib db : Bool)
    (hf : parseRuleFacility ⟨ftok⟩ = some fac) (hft : tokOk ftok)
    (hl : parseRuleLevel ⟨ltok⟩ = some lvl) (hlt : tokOk ltok)
    (hlb : ib = false → ltok.head? ≠ some '!') (hpt : tokOk ptok)
    (hot : tokOk otok) (hob : db = false → otok.head? ≠ some '-') :
    parseContextData outs
      (ftok ++ '.' :: ((if ib then ['!'] else [])
        ++ (ltok ++ '.' :: (ptok ++ ',' :: ((if db then ['-'] else []) ++ otok)))))
      = (findOutputByName outs ⟨otok⟩).map
          (fun i => (⟨fac, lvl, ib, ⟨ptok⟩, i, db⟩ : PmLogParseRule)) := by
  simp only [parseContextData, gtts_sep ftok hft '.' (Or.inl rfl), hf,
    levelClause_sep ib ltok lvl '.' _ hl hlt hlb (Or.inl rfl),
    programClause_sep ptok ',' _ hpt (Or.inr rfl),
    outClause_spec outs otok db hot hob]
  cases h : findOutputByName outs ⟨otok⟩ <;> simp [h]

/- ------------------------------------------------------------------ -/
/- Rule-loop and group-loop lemmas                                     -/
/- ------------------------------------------------------------------ -/

/-- Processing a block of consecutive present-and-parsing rule keys advances
the loop, appending the parsed rules in order. -/
theorem ruleLoop_advance (kvs : List (String × String)) (outs : List PmLogFile) :
    ∀ (vals : List String) (rs : List PmLogParseRule) (fuel j : Nat)
      (pc : PmLogParseContext),
      vals.length ≤ fuel →
      (∀ i (h : i < vals.length), keyLookup kvs (ruleKey (j + i + 1)) = some (vals.get ⟨i, h⟩)) →
      vals.mapM (fun v => parseContextData outs v.data) = some rs →
      ruleLoop kvs outs fuel j pc
        = ruleLoop kvs outs (fuel - vals.length) (j + vals.length)
            { pc with rules := pc.rules ++ rs, numRules := pc.numRules + rs.length } := by
  intro vals
  induction vals with
  | nil =>
    intro rs fuel j pc _ _ hm
    simp only [List.mapM_nil, pure, Option.some.injEq] at hm
    subst hm
    simp
  | cons v vt ih =>
    intro rs fuel j pc hlen hkeys hm
    simp only [List.mapM_cons] at hm
    cases hv : parseContextData outs v.data with
    | none => rw [hv] at hm; simp at hm
    | some r =>
      rw [hv] at hm
      cases hvt : vt.mapM (fun v => parseContextData outs v.data) with
      | none => rw [hvt] at hm; simp at hm
      | some rt =>
        rw [hvt] at hm
        simp at hm
        subst hm
        cases fuel with
        | zero => simp at hlen
        | succ fuel =>
          have hk0 : keyLookup kvs (ruleKey (j + 1)) = some v := by
            have := hkeys 0 (by simp)
            simpa using this
          have hkeys' : ∀ i (h : i < vt.length),
              keyLookup kvs (ruleKey (j + 1 + i + 1)) = some (vt.get ⟨i, h⟩) := by
            intro i h
            have := hkeys (i + 1) (by simpa using Nat.succ_lt_succ h)
            simpa [Nat.add_assoc, Nat.add_comm, Nat.add_left_comm] using this
          have hstep := ih rt fuel (j + 1)
            { pc with rules := pc.rules ++ [r], numRules := pc.numRules + 1 }
            (by simpa using Nat.lt_succ_iff.mp (Nat.lt_of_lt_of_le (Nat.lt_succ_self _) hlen))
            hkeys' hvt
          simp only [ruleLoop, hk0, hv]
          rw [hstep]
          simp [List.append_assoc, Nat.add_assoc, Nat.add_comm, Nat.add_left_comm,
            Nat.succ_sub_succ]

/-- A missing Rule key ends the rule loop without error. -/
theorem ruleLoop_missing (kvs : List (String × String)) (outs : List PmLogFile)
    (j : Nat) (pc : PmLogParseContext)
    (h : keyLookup kvs (ruleKey (j + 1)) = none) :
    ∀ fuel, ruleLoop kvs outs fuel j pc = (pc, true) := by
  intro fuel
  cases fuel with
  | zero => rfl
  | succ fuel => simp [ruleLoop, h]

/-- A present Rule key whose value ParseContextData rejects ends the rule
loop with failure. -/
theorem ruleLoop_fail (kvs : List (String × String)) (outs : List PmLogFile)
    (j fuel : Nat) (pc : PmLogParseContext) (v : String)
    (h : keyLookup kvs (ruleKey (j + 1)) = some v)
    (hp : parseContextData outs v.data = none) :
    ruleLoop kvs outs (fuel + 1) j pc = (pc, false) := by
  simp [ruleLoop, h, hp]

/-- Splitting the group loop at a list append: if the first part broke the
loop, the second part is never looked at. -/
theorem processGroups_append (st : ConfState) (rv dang : Bool)
    (xs ys : List (String × List (String × String))) :
    processGroups st rv dang (xs ++ ys)
      = (if (processGroups st rv dang xs).2.2.2
         then processGroups st rv dang xs
         else processGroups (processGroups st rv dang xs).2.1
                (processGroups st rv dang xs).1
                (processGroups st rv dang xs).2.2.1 ys) := by
  induction xs generalizing st rv dang with
  | nil => simp [processGroups]
  | cons g gs ih =>
    simp only [List.cons_append, processGroups]
    by_cases hb : (processGroup st dang g).2.2.1
    · simp [hb]
    · simp only [hb, if_false, Bool.false_eq_true]
      exact ih _ _ _

/-- retVal is sticky: once false it stays false. -/
theorem processGroups_false (st : ConfState) (dang : Bool)
    (gs : List (String × List (String × String))) :
    (processGroups st false dang gs).1 = false := by
  induction gs generalizing st dang with
  | nil => rfl
  | cons g gs ih =>
    simp only [processGroups]
    by_cases hb : (processGroup st dang g).2.2.1
    · simp [hb]
    · simp [hb, ih]

theorem isPrefixOf_self_append (l t : List Char) : l.isPrefixOf (l ++ t) = true := by
  induction l with
  | nil => cases t <;> rfl
  | cons a l ih => simp [List.isPrefixOf, ih]

theorem output_pfx_not_context (nm : List Char) :
    ("OUTPUT=".data).isPrefixOf ("CONTEXT=".data ++ nm) = false := by
  rfl

theorem context_group_name_drop (nm : List Char) :
    ("CONTEXT=".data ++ nm).drop 8 = nm := by
  rfl

theorem parseOutputInit_File (n : Nat) (name : String) :
    (parseOutputInit n name).2.File = "" := by
  unfold parseOutputInit
  split <;> rfl

theorem makeOutputConf_bad_file (outs : List PmLogFile) (po : PmLogParseOutput)
    (h : po.File.data.head? ≠ some '/') : makeOutputConf outs po = none := by
  unfold makeOutputConf
  cases hh : po.File.data.head? with
  | none => simp
  | some c =>
    have hc : c ≠ '/' := fun e => h (by rw [hh, e])
    simp [hc]

theorem output_group_name_drop (nm : List Char) :
    ("OUTPUT=".data ++ nm).drop 7 = nm := by
  rfl

/-- The File field assembled by outputParse: the (truncated) File value from
the key file, or empty when the key is absent (MaxSize and Rotations never
touch it; both branches of ParseOutputInit leave it empty). -/
theorem outputParse_File (n : Nat) (name : String) (kvs : List (String × String)) :
    (outputParse n name kvs).1.File
      = (match keyLookup kvs "File" with
         | some v => (⟨v.data.take (pathMax - 1)⟩ : String)
         | none => "") := by
  unfold outputParse
  cases hf : keyLookup kvs "File" <;>
    cases hm : keyLookup kvs "MaxSize" <;>
      cases hr : (keyLookup kvs "Rotations").bind (fun v => gkfGetInteger v) <;>
        simp [hf, hm, hr, parseOutputInit_File] <;>
        cases hps : parseSize _ <;> simp [hps, parseOutputInit_File]

/-- A failed rule scan makes the whole context group fail. -/
theorem contextParse_rules_false (outs : List PmLogFile) (n : Nat) (name : String)
    (kvs : List (String × String)) (dang : Bool) (pc1 : PmLogParseContext)
    (h : ruleLoop kvs outs pmlogContextMaxNumRules 0 (parseContextInit n name).2
          = (pc1, false)) :
    (contextParse outs n name kvs dang).2 = false := by
  simp [contextParse, h]

/-- C4: a context rule whose (possibly '-'-prefixed) output name does not
resolve to an already-declared output makes ParseContextData fail (first
three conjuncts, one per filter shape of the rule grammar), and a context
group whose rule scan fails makes the whole load fail: ReadConfFile returns
false whatever comes after (last conjunct). -/
theorem C4_unknown_output_fails_load :
    (∀ (outs : List PmLogFile) (ftok otok : List Char) (fac : Int) (db : Bool),
      parseRuleFacility ⟨ftok⟩ = some fac → tokOk ftok → tokOk otok →
      (db = false → otok.head? ≠ some '-') →
      findOutputByName outs ⟨otok⟩ = none →
      parseContextData outs (ftok ++ ',' :: ((if db then ['-'] else []) ++ otok)) = none)
    ∧ (∀ (outs : List PmLogFile) (ftok ltok otok : List Char) (fac lvl : Int) (ib db : Bool),
      parseRuleFacility ⟨ftok⟩ = some fac → tokOk ftok →
      parseRuleLevel ⟨ltok⟩ = some lvl → tokOk ltok →
      (ib = false → ltok.head? ≠ some '!') → tokOk otok →
      (db = false → otok.head? ≠ some '-') →
      findOutputByName outs ⟨otok⟩ = none →
      parseContextData outs
        (ftok ++ '.' :: ((if ib then ['!'] else [])
          ++ (ltok ++ ',' :: ((if db then ['-'] else []) ++ otok)))) = none)
    ∧ (∀ (outs : List PmLogFile) (ftok ltok ptok otok : List Char) (fac lvl : Int) (ib db : Bool),
      parseRuleFacility ⟨ftok⟩ = some fac → tokOk ftok →
      parseRuleLevel ⟨ltok⟩ = some lvl → tokOk ltok →
      (ib = false → ltok.head? ≠ some '!') → tokOk ptok → tokOk otok →
      (db = false → otok.head? ≠ some '-') →
      findOutputByName outs ⟨otok⟩ = none →
      parseContextData outs
        (ftok ++ '.' :: ((if ib then ['!'] else [])
          ++ (ltok ++ '.' :: (ptok ++ ',' :: ((if db then ['-'] else []) ++ otok))))) = none)
    ∧ (∀ (pre : List (String × List (String × String))) (st : ConfState)
        (dang : Bool) (nm : List Char) (kvs : List (String × String))
        (post : List (String × List (String × String))) (pc1 : PmLogParseContext),
      processGroups ⟨[], some [], 0⟩ true false pre = (true, st, dang, false) →
      ruleLoop kvs st.outputs pmlogContextMaxNumRules 0
          (parseContextInit st.numContexts ⟨nm⟩).2 = (pc1, false) →
      (readConfFile (pre ++ (⟨"CONTEXT=".data ++ nm⟩, kvs) :: post)).1 = false) := by
  refine ⟨?_, ?_, ?_, ?_⟩
  · intro outs ftok otok fac db hf hft hot hob hnone
    rw [pcd_facility_only outs ftok otok fac db hf hft hot hob, hnone]
    rfl
  · intro outs ftok ltok otok fac lvl ib db hf hft hl hlt hlb hot hob hnone
    rw [pcd_facility_level outs ftok ltok otok fac lvl ib db hf hft hl hlt hlb hot hob, hnone]
    rfl
  · intro outs ftok ltok ptok otok fac lvl ib db hf hft hl hlt hlb hpt hot hob hnone
    rw [pcd_full outs ftok ltok ptok otok fac lvl ib db hf hft hl hlt hlb hpt hot hob, hnone]
    rfl
  · intro pre st dang nm kvs post pc1 hpre hrl
    simp only [readConfFile]
    rw [processGroups_append, hpre]
    simp only [if_neg (by decide : ¬(false = true)), processGroups]
    have hpg : (processGroup st dang (⟨"CONTEXT=".data ++ nm⟩, kvs)).2.1 = false ∧
        (processGroup st dang (⟨"CONTEXT=".data ++ nm⟩, kvs)).2.2.1 = false := by
      simp only [processGroup, output_pfx_not_context, isPrefixOf_self_append,
        context_group_name_drop, Bool.false_eq_true, if_false, if_true]
      simp [contextParse_rules_false st.outputs st.numContexts ⟨nm⟩ kvs dang pc1 hrl]
    rw [if_neg (by rw [hpg.2]; exact (by decide : ¬(false = true)))]
    rw [hpg.1]
    simp only [Bool.and_false]
    exact processGroups_false _ _ _

/-- C4 witness: with a single declared output "stdlog", the rule value
"*,nosuch" is rejected, and a file whose <global> context carries that rule
is rejected as a whole. -/
theorem C4_witness :
    parseContextData [⟨"stdlog", "/var/log/messages", 0, 0⟩]
        ("*".data ++ ',' :: ((if false then ['-'] else []) ++ "nosuch".data)) = none
    ∧ (readConfFile ([] ++ (⟨"CONTEXT=".data ++ "<global>".data⟩,
        [("Rule1", "*,nosuch")]) :: [])).1 = false := by
  constructor
  · exact C4_unknown_output_fails_load.1 [⟨"stdlog", "/var/log/messages", 0, 0⟩]
      "*".data "nosuch".data (-1) false (by decide) (by decide) (by decide)
      (fun _ => by decide) (by decide)
  · exact C4_unknown_output_fails_load.2.2.2 [] ⟨[], some [], 0⟩ false
      "<global>".data [("Rule1", "*,nosuch")] [] ⟨"<global>", 0, 0, 0, []⟩
      (by decide) (by decide)

/-- C5: an [OUTPUT=...] section whose File key is missing or whose File value
does not start with '/' fails MakeOutputConf (first conjunct), and such a
group makes ReadConfFile return false immediately: the break leaves the
state as it was before the group and the following groups unprocessed
(second conjunct — the returned state is exactly the pre-group state,
whatever `post` contains). -/
theorem C5_bad_file_aborts_load :
    (∀ (outs : List PmLogFile) (po : PmLogParseOutput),
      po.File.data.head? ≠ some '/' → makeOutputConf outs po = none)
    ∧ (∀ (pre : List (String × List (String × String))) (st : ConfState)
        (dang : Bool) (nm : List Char) (kvs : List (String × String))
        (post : List (String × List (String × String))),
      processGroups ⟨[], some [], 0⟩ true false pre = (true, st, dang, false) →
      (∀ v, keyLookup kvs "File" = some v →
        (v.data.take (pathMax - 1)).head? ≠ some '/') →
      readConfFile (pre ++ (⟨"OUTPUT=".data ++ nm⟩, kvs) :: post) = (false, st)) := by
  constructor
  · exact makeOutputConf_bad_file
  · intro pre st dang nm kvs post hpre hfile
    simp only [readConfFile]
    rw [processGroups_append, hpre]
    simp only [if_neg (by decide : ¬(false = true)), processGroups]
    have hF : (outputParse st.outputs.length ⟨("OUTPUT=".data ++ nm).drop 7⟩ kvs).1.File.data.head?
        ≠ some '/' := by
      rw [outputParse_File]
      cases hk : keyLookup kvs "File" with
      | none => decide
      | some v => simpa using hfile v hk
    have hmk := makeOutputConf_bad_file st.outputs _ hF
    simp only [processGroup, isPrefixOf_self_append, if_true, hmk]
    simp

/-- C5 witness: a relative File value fails MakeOutputConf, and an
[OUTPUT=stdlog] group with that File makes the load return false with the
state untouched, the following group never processed. -/
theorem C5_witness :
    makeOutputConf [] ⟨"stdlog", "relative/path", 0, 0⟩ = none
    ∧ readConfFile ([] ++ (⟨"OUTPUT=".data ++ "stdlog".data⟩,
        [("File", "relative/path")]) :: [("OUTPUT=other", [("File", "/abs")])])
      = (false, ⟨[], some [], 0⟩) := by
  constructor
  · exact C5_bad_file_aborts_load.1 [] ⟨"stdlog", "relative/path", 0, 0⟩ (by decide)
  · exact C5_bad_file_aborts_load.2 [] ⟨[], some [], 0⟩ false "stdlog".data
      [("File", "relative/path")] [("OUTPUT=other", [("File", "/abs")])]
      (by decide)
      (by
        intro v h
        simp [keyLookup] at h
        subst h
        decide)

/-- C6: rule values follow the grammar
<facility>[.[!]<level>[.<program>]],[-]<outputName>.  Conjunct 1: with no
level part the rule gets level -1 and levelInvert false and an empty
program; conjunct 2: a '!' before the level sets levelInvert (and the
program is empty when absent); conjunct 3: the full form stores the program
token; in each, a leading '-' on the output name sets omitOutput.  Conjunct
4: the rule keys are scanned as Rule1, Rule2, ... in sequence up to
PMLOG_CONTEXT_MAX_NUM_RULES, stopping at the first missing index: the loop's
result is exactly the fold of the consecutive present values. -/
theorem C6_rule_grammar :
    (∀ (outs : List PmLogFile) (ftok otok : List Char) (fac : Int) (i : Nat) (db : Bool),
      parseRuleFacility ⟨ftok⟩ = some fac → tokOk ftok → tokOk otok →
      (db = false → otok.head? ≠ some '-') →
      findOutputByName outs ⟨otok⟩ = some i →
      parseContextData outs (ftok ++ ',' :: ((if db then ['-'] else []) ++ otok))
        = some ⟨fac, -1, false, "", i, db⟩)
    ∧ (∀ (outs : List PmLogFile) (ftok ltok otok : List Char) (fac lvl : Int)
        (i : Nat) (ib db : Bool),
      parseRuleFacility ⟨ftok⟩ = some fac → tokOk ftok →
      parseRuleLevel ⟨ltok⟩ = some lvl → tokOk ltok →
      (ib = false → ltok.head? ≠ some '!') → tokOk otok →
      (db = false → otok.head? ≠ some '-') →
      findOutputByName outs ⟨otok⟩ = some i →
      parseContextData outs
        (ftok ++ '.' :: ((if ib then ['!'] else [])
          ++ (ltok ++ ',' :: ((if db then ['-'] else []) ++ otok))))
        = some ⟨fac, lvl, ib, "", i, db⟩)
    ∧ (∀ (outs : List PmLogFile) (ftok ltok ptok otok : List Char) (fac lvl : Int)
        (i : Nat) (ib db : Bool),
      parseRuleFacility ⟨ftok⟩ = some fac → tokOk ftok →
      parseRuleLevel ⟨ltok⟩ = some lvl → tokOk ltok →
      (ib = false → ltok.head? ≠ some '!') → tokOk ptok → tokOk otok →
      (db = false → otok.head? ≠ some '-') →
      findOutputByName outs ⟨otok⟩ = some i →
      parseContextData outs
        (ftok ++ '.' :: ((if ib then ['!'] else [])
          ++ (ltok ++ '.' :: (ptok ++ ',' :: ((if db then ['-'] else []) ++ otok)))))
        = some ⟨fac, lvl, ib, ⟨ptok⟩, i, db⟩)
    ∧ (∀ (kvs : List (String × String)) (outs : List PmLogFile) (vals : List String)
        (rs : List PmLogParseRule) (pc : PmLogParseContext),
      vals.length ≤ pmlogContextMaxNumRules →
      (∀ i (h : i < vals.length), keyLookup kvs (ruleKey (i + 1)) = some (vals.get ⟨i, h⟩)) →
      (vals.length < pmlogContextMaxNumRules →
        keyLookup kvs (ruleKey (vals.length + 1)) = none) →
      vals.mapM (fun v => parseContextData outs v.data) = some rs →
      ruleLoop kvs outs pmlogContextMaxNumRules 0 pc
        = ({ pc with rules := pc.rules ++ rs, numRules := pc.numRules + rs.length }, true)) := by
  refine ⟨?_, ?_, ?_, ?_⟩
  · intro outs ftok otok fac i db hf hft hot hob hfind
    rw [pcd_facility_only outs ftok otok fac db hf hft hot hob, hfind]
    rfl
  · intro outs ftok ltok otok fac lvl i ib db hf hft hl hlt hlb hot hob hfind
    rw [pcd_facility_level outs ftok ltok otok fac lvl ib db hf hft hl hlt hlb hot hob, hfind]
    rfl
  · intro outs ftok ltok ptok otok fac lvl i ib db hf hft hl hlt hlb hpt hot hob hfind
    rw [pcd_full outs ftok ltok ptok otok fac lvl ib db hf hft hl hlt hlb hpt hot hob, hfind]
    rfl
  · intro kvs outs vals rs pc hlen hkeys hmiss hm
    have hkeys0 : ∀ i (h : i < vals.length),
        keyLookup kvs (ruleKey (0 + i + 1)) = some (vals.get ⟨i, h⟩) := by
      intro i h
      simpa [Nat.zero_add] using hkeys i h
    rw [ruleLoop_advance kvs outs vals rs pmlogContextMaxNumRules 0 pc hlen hkeys0 hm]
    by_cases hlt : vals.length < pmlogContextMaxNumRules
    · have hnone : keyLookup kvs (ruleKey (0 + vals.length + 1)) = none := by
        simpa [Nat.zero_add] using hmiss hlt
      exact ruleLoop_missing kvs outs (0 + vals.length) _ hnone _
    · have heq : vals.length = pmlogContextMaxNumRules :=
        le_antisymm hlen (not_lt.mp hlt)
      rw [heq]
      simp [ruleLoop]

/-- C6 witness: the full grammar form "kern.!err.foo,-stdlog" parses to the
expected rule against a one-output table, and a group holding Rule1 and
Rule2 (and no Rule3) is scanned into exactly those two rules. -/
theorem C6_witness :
    parseContextData [⟨"stdlog", "/var/log/messages", 0, 0⟩]
        ("kern".data ++ '.' :: ((if true then ['!'] else [])
          ++ ("err".data ++ '.' :: ("foo".data ++ ',' ::
            ((if true then ['-'] else []) ++ "stdlog".data)))))
      = some ⟨0, 3, true, "foo", 0, true⟩
    ∧ ruleLoop [("Rule1", "*.*,stdlog"), ("Rule2", "kern.err,stdlog")]
        [⟨"stdlog", "/var/log/messages", 0, 0⟩] pmlogContextMaxNumRules 0
        ⟨"<global>", 0, 0, 0, []⟩
      = (⟨"<global>", 2, 0, 0,
          [⟨-1, -1, false, "", 0, false⟩, ⟨0, 3, false, "", 0, false⟩]⟩, true) := by
  constructor
  · exact C6_rule_grammar.2.2.1 [⟨"stdlog", "/var/log/messages", 0, 0⟩]
      "kern".data "err".data "foo".data "stdlog".data 0 3 0 true true
      (by decide) (by decide) (by decide) (by decide)
      (fun h => absurd h (by decide)) (by decide) (by decide)
      (fun h => absurd h (by decide)) (by decide)
  · exact C6_rule_grammar.2.2.2 [("Rule1", "*.*,stdlog"), ("Rule2", "kern.err,stdlog")]
      [⟨"stdlog", "/var/log/messages", 0, 0⟩]
      ["*.*,stdlog", "kern.err,stdlog"]
      [⟨-1, -1, false, "", 0, false⟩, ⟨0, 3, false, "", 0, false⟩]
      ⟨"<global>", 0, 0, 0, []⟩
      (by decide) (by decide) (fun _ => by decide) (by decide)

/- ------------------------------------------------------------------ -/
/- Name-uniqueness lemmas (C8)                                         -/
/- ------------------------------------------------------------------ -/

theorem updateAt_names (l : List PmLogFile) (i : Nat) (f : PmLogFile → PmLogFile)
    (h : ∀ o, (f o).outputName = o.outputName) :
    outNames (updateAt l i f) = outNames l := by
  induction l generalizing i with
  | nil => rfl
  | cons o r ih =>
    cases i with
    | zero => simp [updateAt, outNames, h]
    | succ j => simp [updateAt, outNames] at ih ⊢; exact ih j

theorem updateAt_length (l : List PmLogFile) (i : Nat) (f : PmLogFile → PmLogFile) :
    (updateAt l i f).length = l.length := by
  induction l generalizing i with
  | nil => rfl
  | cons o r ih =>
    cases i with
    | zero => simp [updateAt]
    | succ j => simp [updateAt, ih j]

theorem findOutputAux_none (nm : String) :
    ∀ (outs : List PmLogFile) (i : Nat),
      findOutputAux nm i outs = none ↔ nm ∉ outNames outs := by
  intro outs
  induction outs with
  | nil => intro i; simp [findOutputAux, outNames]
  | cons o r ih =>
    intro i
    by_cases ho : o.outputName = nm
    · simp [findOutputAux, ho, outNames]
    · simp [findOutputAux, ho, outNames, ih (i + 1), Ne.symm ho]

theorem findOutputByName_none (outs : List PmLogFile) (nm : String) :
    findOutputByName outs nm = none ↔ nm ∉ outNames outs :=
  findOutputAux_none nm outs 0

/-- What MakeOutputConf does to the name column: an existing name leaves the
names (and the length) unchanged; a new name is appended. -/
theorem makeOutputConf_names (outs : List PmLogFile) (po : PmLogParseOutput)
    (outs' : List PmLogFile) (h : makeOutputConf outs po = some outs') :
    (outNames outs' = outNames outs ∧ outs'.length = outs.length)
    ∨ (findOutputByName outs po.name = none
        ∧ outNames outs' = outNames outs ++ [po.name]) := by
  unfold makeOutputConf at h
  split at h
  · exact absurd h (by simp)
  · split at h
    · exact absurd h (by simp)
    · split at h
      · split at h
        · cases h
          exact Or.inl ⟨updateAt_names outs _ _ (fun o => rfl), updateAt_length outs _ _⟩
        · cases h
          exact Or.inl ⟨rfl, rfl⟩
      · next hf =>
        split at h
        · exact absurd h (by simp)
        · split at h
          · cases h
            refine Or.inr ⟨hf, ?_⟩
            rw [updateAt_names _ _
              (fun o => { o with rotations := pmlogDefaultLogRotations }) (fun o => rfl)]
            simp [outNames]
          · cases h
            exact Or.inr ⟨hf, by simp [outNames]⟩

theorem makeOutputConf_nodup (outs : List PmLogFile) (po : PmLogParseOutput)
    (outs' : List PmLogFile) (h : makeOutputConf outs po = some outs')
    (hn : (outNames outs).Nodup) : (outNames outs').Nodup := by
  rcases makeOutputConf_names outs po outs' h with ⟨he, _⟩ | ⟨hf, he⟩
  · rw [he]; exact hn
  · rw [he]
    simp [List.nodup_append, hn, (findOutputByName_none outs po.name).mp hf]

theorem ctxLookup_none (l : List (String × PmLogContextConf)) (k : String) :
    ctxLookup l k = none ↔ k ∉ l.map (fun p => p.1) := by
  induction l with
  | nil => simp [ctxLookup]
  | cons p r ih =>
    by_cases hp : p.1 = k
    · simp [ctxLookup, hp]
    · simp [ctxLookup, hp, ih, Ne.symm hp]

theorem ctxKeys_write (t : Option (List (String × PmLogContextConf))) (k : String)
    (f : PmLogContextConf → PmLogContextConf) :
    ctxKeys (gTreeWrite t k f) = ctxKeys t := by
  cases t with
  | none => rfl
  | some l =>
    simp only [gTreeWrite, ctxKeys]
    induction l with
    | nil => rfl
    | cons p r ih =>
      by_cases hp : p.1 = k <;> simp [hp, ih]

theorem gTreeNnodes_write (t : Option (List (String × PmLogContextConf))) (k : String)
    (f : PmLogContextConf → PmLogContextConf) :
    gTreeNnodes (gTreeWrite t k f) = gTreeNnodes t := by
  cases t <;> simp [gTreeWrite, gTreeNnodes]

theorem ctxKeys_insert_replace (l : List (String × PmLogContextConf)) (k : String)
    (c : PmLogContextConf) :
    (l.map fun p => if p.1 = k then (k, c) else p).map (fun p => p.1)
      = l.map (fun p => p.1) := by
  induction l with
  | nil => rfl
  | cons p r ih =>
    by_cases hp : p.1 = k <;> simp [hp, ih]

theorem makeContextConf_nodup (st : ConfState) (pc : PmLogParseContext)
    (hn : (ctxKeys st.contextTree).Nodup) :
    (ctxKeys (makeContextConf st pc).contextTree).Nodup := by
  cases hl : gTreeLookup st.contextTree pc.name with
  | some c =>
    simp only [makeContextConf, hl]
    simpa [ctxKeys_write] using hn
  | none =>
    simp only [makeContextConf, hl]
    cases ht : st.contextTree with
    | none => simp [createContext, gTreeInsert, gTreeWrite, ctxKeys, ht]
    | some l =>
      have hkl : ctxLookup l pc.name = none := by rw [ht] at hl; exact hl
      simp only [createContext, ht, gTreeInsert, hkl, Option.isSome_none,
        Bool.false_eq_true, if_false, ctxKeys_write]
      rw [ht] at hn
      simp only [ctxKeys] at hn ⊢
      simp [List.nodup_append, hn, (ctxLookup_none l pc.name).mp hkl]

theorem makeContextConf_existing (st : ConfState) (pc : PmLogParseContext)
    (c : PmLogContextConf) (hl : gTreeLookup st.contextTree pc.name = some c) :
    ctxKeys (makeContextConf st pc).contextTree = ctxKeys st.contextTree
    ∧ gTreeNnodes (makeContextConf st pc).contextTree = gTreeNnodes st.contextTree := by
  simp only [makeContextConf, hl]
  exact ⟨ctxKeys_write _ _ _, gTreeNnodes_write _ _ _⟩

/-- MakeContextConf never touches the output table. -/
theorem makeContextConf_outputs (st : ConfState) (pc : PmLogParseContext) :
    (makeContextConf st pc).outputs = st.outputs := by
  unfold makeContextConf createContext
  split <;> rfl

theorem processGroup_nodup (st : ConfState) (dang : Bool) (g : ConfGroup)
    (hn : (outNames st.outputs).Nodup ∧ (ctxKeys st.contextTree).Nodup) :
    (outNames (processGroup st dang g).1.outputs).Nodup
    ∧ (ctxKeys (processGroup st dang g).1.contextTree).Nodup := by
  unfold processGroup
  by_cases h1 : ("OUTPUT=".data).isPrefixOf g.1.data
  · simp only [h1, if_true]
    cases hm : makeOutputConf st.outputs
        (outputParse st.outputs.length ⟨g.1.data.drop 7⟩ g.2).1 with
    | some outs2 =>
      simp only [hm]
      exact ⟨makeOutputConf_nodup _ _ _ hm hn.1, hn.2⟩
    | none =>
      simp only [hm]
      exact hn
  · by_cases h2 : ("CONTEXT=".data).isPrefixOf g.1.data
    · simp only [h1, h2, if_true, Bool.false_eq_true, if_false]
      refine ⟨?_, makeContextConf_nodup st _ hn.2⟩
      rw [makeContextConf_outputs]
      exact hn.1
    · simp only [h1, h2, Bool.false_eq_true, if_false]
      exact hn

theorem processGroups_nodup (gs : List (String × List (String × String))) :
    ∀ (st : ConfState) (rv dang : Bool),
      (outNames st.outputs).Nodup ∧ (ctxKeys st.contextTree).Nodup →
      (outNames (processGroups st rv dang gs).2.1.outputs).Nodup
      ∧ (ctxKeys (processGroups st rv dang gs).2.1.contextTree).Nodup := by
  induction gs with
  | nil => intro st rv dang h; exact h
  | cons g gs ih =>
    intro st rv dang h
    simp only [processGroups]
    by_cases hb : (processGroup st dang g).2.2.1
    · simp only [hb, if_true]
      exact processGroup_nodup st dang g h
    · simp only [hb, Bool.false_eq_true, if_false]
      exact ih _ _ _ (processGroup_nodup st dang g h)

/-- C8: output names and context names stay unique.  Conjunct 1: after any
load, the output-name column and the context-tree key set are duplicate
free.  Conjunct 2: a second [OUTPUT=x] group with an existing name updates
the entry in place — the name column and the table length are unchanged.
Conjunct 3: a second [CONTEXT=x] group with an existing name rewrites the
tree node in place — the key set and the node count are unchanged. -/
theorem C8_name_uniqueness :
    (∀ kf : List (String × List (String × String)),
      (outNames (readConfFile kf).2.outputs).Nodup
      ∧ (ctxKeys (readConfFile kf).2.contextTree).Nodup)
    ∧ (∀ (outs : List PmLogFile) (po : PmLogParseOutput) (i : Nat)
        (outs' : List PmLogFile),
      findOutputByName outs po.name = some i →
      makeOutputConf outs po = some outs' →
      outNames outs' = outNames outs ∧ outs'.length = outs.length)
    ∧ (∀ (st : ConfState) (pc : PmLogParseContext) (c : PmLogContextConf),
      gTreeLookup st.contextTree pc.name = some c →
      ctxKeys (makeContextConf st pc).contextTree = ctxKeys st.contextTree
      ∧ gTreeNnodes (makeContextConf st pc).contextTree = gTreeNnodes st.contextTree) := by
  refine ⟨?_, ?_, ?_⟩
  · intro kf
    exact processGroups_nodup kf ⟨[], some [], 0⟩ true false
      (by constructor <;> simp [outNames, ctxKeys])
  · intro outs po i outs' hf hm
    rcases makeOutputConf_names outs po outs' hm with h | ⟨hnone, _⟩
    · exact h
    · rw [hf] at hnone
      exact absurd hnone (by simp)
  · intro st pc c hl
    exact makeContextConf_existing st pc c hl

/-- C8 witness: re-declaring [OUTPUT=stdlog] updates index 0 in place (same
name column, same length), and re-declaring [CONTEXT=<global>] rewrites the
existing tree node (same keys, same node count). -/
theorem C8_witness :
    (outNames [⟨"stdlog", "/var/log/messages", 0, 1⟩]
        = outNames [⟨"stdlog", "/var/log/messages", 0, 0⟩]
      ∧ ([⟨"stdlog", "/var/log/messages", 0, 1⟩] : List PmLogFile).length
        = ([⟨"stdlog", "/var/log/messages", 0, 0⟩] : List PmLogFile).length)
    ∧ (ctxKeys (makeContextConf
          ⟨[⟨"stdlog", "/var/log/messages", 0, 0⟩],
            some [("<global>", ⟨"<global>", 0, [], ⟨0, 0⟩⟩)], 1⟩
          ⟨"<global>", 1, 16384, 3, []⟩).contextTree
        = ctxKeys (some [("<global>", (⟨"<global>", 0, [], ⟨0, 0⟩⟩ : PmLogContextConf))])
      ∧ gTreeNnodes (makeContextConf
          ⟨[⟨"stdlog", "/var/log/messages", 0, 0⟩],
            some [("<global>", ⟨"<global>", 0, [], ⟨0, 0⟩⟩)], 1⟩
          ⟨"<global>", 1, 16384, 3, []⟩).contextTree
        = gTreeNnodes (some [("<global>", (⟨"<global>", 0, [], ⟨0, 0⟩⟩ : PmLogContextConf))])) := by
  constructor
  · exact C8_name_uniqueness.2.1 [⟨"stdlog", "/var/log/messages", 0, 0⟩]
      ⟨"stdlog", "/x", 5, -1⟩ 0 [⟨"stdlog", "/var/log/messages", 0, 1⟩]
      (by decide) (by decide)
  · exact C8_name_uniqueness.2.2
      ⟨[⟨"stdlog", "/var/log/messages", 0, 0⟩],
        some [("<global>", ⟨"<global>", 0, [], ⟨0, 0⟩⟩)], 1⟩
      ⟨"<global>", 1, 16384, 3, []⟩ ⟨"<global>", 0, [], ⟨0, 0⟩⟩ (by decide)

/- ------------------------------------------------------------------ -/
/- Ring-buffer bound lemmas (C7)                                       -/
/- ------------------------------------------------------------------ -/

theorem ruleLoop_rb_fields (kvs : List (String × String)) (outs : List PmLogFile) :
    ∀ (fuel j : Nat) (pc : PmLogParseContext),
      (ruleLoop kvs outs fuel j pc).1.bufferSize = pc.bufferSize
      ∧ (ruleLoop kvs outs fuel j pc).1.flushLevel = pc.flushLevel := by
  intro fuel
  induction fuel with
  | zero => intro j pc; exact ⟨rfl, rfl⟩
  | succ fuel ih =>
    intro j pc
    cases hk : keyLookup kvs (ruleKey (j + 1)) with
    | none => simp [ruleLoop, hk]
    | some v =>
      cases hp : parseContextData outs v.data with
      | none => simp [ruleLoop, hk, hp]
      | some r =>
        simp only [ruleLoop, hk, hp]
        exact ih (j + 1) _

theorem parseContextInit_rb_fields (n : Nat) (name : String) :
    (parseContextInit n name).2.bufferSize = 0
    ∧ (parseContextInit n name).2.flushLevel = 0 := by
  unfold parseContextInit
  split <;> exact ⟨rfl, rfl⟩

theorem bufferSizeStep_flushLevel (kvs : List (String × String)) (dang : Bool)
    (pc : PmLogParseContext) :
    (bufferSizeStep kvs dang pc).1.flushLevel = pc.flushLevel := by
  unfold bufferSizeStep
  by_cases hd : dang
  · simp [hd]
  · simp only [hd, Bool.false_eq_true, if_false]
    cases hk : keyLookup kvs "BufferSize" with
    | none => simp [hk]
    | some v =>
      cases hp : parseSize v.data with
      | none => simp [hk, hp]
      | some n => simp [hk, hp]

theorem bufferSizeStep_nonneg (kvs : List (String × String)) (dang : Bool)
    (pc : PmLogParseContext) (h0 : pc.bufferSize = 0) (hbs : bsOkPred kvs) :
    0 ≤ (bufferSizeStep kvs dang pc).1.bufferSize := by
  unfold bufferSizeStep
  unfold bsOkPred at hbs
  by_cases hd : dang
  · simp [hd, h0]
  · simp only [hd, Bool.false_eq_true, if_false]
    cases hk : keyLookup kvs "BufferSize" with
    | none => simp [h0]
    | some v =>
      rw [hk] at hbs
      dsimp only at hbs
      cases hp : parseSize v.data with
      | none => simp [hp, h0]
      | some m =>
        rw [hp] at hbs
        simpa [hp] using hbs

theorem flushLevelStep_bufferSize (kvs : List (String × String))
    (pc : PmLogParseContext) :
    (flushLevelStep kvs pc).1.bufferSize = pc.bufferSize := by
  unfold flushLevelStep
  cases hk : keyLookup kvs "FlushLevel" with
  | none => simp [hk]
  | some v => simp [hk, parseLevel]

theorem flushLevelStep_range (kvs : List (String × String))
    (pc : PmLogParseContext) (h0 : pc.flushLevel = 0) (hfl : flOkPred kvs) :
    0 ≤ (flushLevelStep kvs pc).1.flushLevel
    ∧ (flushLevelStep kvs pc).1.flushLevel ≤ 7 := by
  unfold flushLevelStep
  unfold flOkPred at hfl
  cases hk : keyLookup kvs "FlushLevel" with
  | none => simp [h0]
  | some v =>
    rw [hk] at hfl
    dsimp only at hfl
    cases hl : pmLogStringToLevel v with
    | none => rw [hl] at hfl; exact absurd hfl (by simp)
    | some l =>
      rw [hl] at hfl
      simp [parseLevel, hl, hfl.1, hfl.2]

/-- Under the amended C7 hypotheses, the parse struct a context group hands
to MakeContextConf carries a nonnegative buffer size and a flush level in
0..7. -/
theorem contextParse_rb_ok (outs : List PmLogFile) (n : Nat) (name : String)
    (kvs : List (String × String)) (dang : Bool)
    (hbs : bsOkPred kvs) (hfl : flOkPred kvs) :
    0 ≤ (contextParse outs n name kvs dang).1.bufferSize
    ∧ 0 ≤ (contextParse outs n name kvs dang).1.flushLevel
    ∧ (contextParse outs n name kvs dang).1.flushLevel ≤ 7 := by
  unfold contextParse
  have hrl := ruleLoop_rb_fields kvs outs pmlogContextMaxNumRules 0
    (parseContextInit n name).2
  have hinit := parseContextInit_rb_fields n name
  have hb0 : (ruleLoop kvs outs pmlogContextMaxNumRules 0
      (parseContextInit n name).2).1.bufferSize = 0 := by rw [hrl.1, hinit.1]
  have hf0 : (ruleLoop kvs outs pmlogContextMaxNumRules 0
      (parseContextInit n name).2).1.flushLevel = 0 := by rw [hrl.2, hinit.2]
  refine ⟨?_, ?_⟩
  · rw [flushLevelStep_bufferSize]
    exact bufferSizeStep_nonneg kvs dang _ hb0 hbs
  · exact flushLevelStep_range kvs _
      (by rw [bufferSizeStep_flushLevel]; exact hf0) hfl

theorem ctxLookup_map_write (l : List (String × PmLogContextConf)) (k k' : String)
    (f : PmLogContextConf → PmLogContextConf) :
    ctxLookup (l.map fun p => if p.1 = k then (k, f p.2) else p) k'
      = (ctxLookup l k').map (fun c => if k' = k then f c else c) := by
  induction l with
  | nil => rfl
  | cons p r ih =>
    obtain ⟨a, c⟩ := p
    simp only [List.map_cons]
    by_cases hp : a = k
    · subst hp
      rw [if_pos (show (a, c).1 = a from rfl)]
      simp only [ctxLookup]
      by_cases hk : a = k'
      · subst hk
        rw [if_pos (show (a, f c).1 = a from rfl), if_pos (show (a, c).1 = a from rfl)]
        simp
      · rw [if_neg (show ¬(a, f c).1 = k' from hk), if_neg (show ¬(a, c).1 = k' from hk)]
        exact ih
    · rw [if_neg (show ¬(a, c).1 = k from hp)]
      simp only [ctxLookup]
      by_cases hk : a = k'
      · subst hk
        rw [if_pos (show (a, c).1 = a from rfl), if_pos (show (a, c).1 = a from rfl)]
        simp [hp]
      · rw [if_neg (show ¬(a, c).1 = k' from hk), if_neg (show ¬(a, c).1 = k' from hk)]
        exact ih

theorem gTreeLookup_write (t : Option (List (String × PmLogContextConf)))
    (k k' : String) (f : PmLogContextConf → PmLogContextConf) :
    gTreeLookup (gTreeWrite t k f) k'
      = (gTreeLookup t k').map (fun c => if k' = k then f c else c) := by
  cases t with
  | none => rfl
  | some l => simpa [gTreeWrite, gTreeLookup] using ctxLookup_map_write l k k' f

theorem ctxLookup_append (l l2 : List (String × PmLogContextConf)) (k : String) :
    ctxLookup (l ++ l2) k
      = (match ctxLookup l k with
         | some c => some c
         | none => ctxLookup l2 k) := by
  induction l with
  | nil => simp [ctxLookup]
  | cons p r ih =>
    by_cases hp : p.1 = k
    · simp [ctxLookup, hp]
    · simp [ctxLookup, hp, ih]

/-- MakeContextConf preserves the ring-buffer bounds when the parse struct
it installs satisfies them. -/
theorem makeContextConf_rb_inv (st : ConfState) (pc : PmLogParseContext)
    (hpc : 0 ≤ pc.bufferSize ∧ 0 ≤ pc.flushLevel ∧ pc.flushLevel ≤ 7)
    (hinv : ∀ k c, gTreeLookup st.contextTree k = some c →
      0 ≤ c.rb.size ∧ 0 ≤ c.rb.flushLevel ∧ c.rb.flushLevel ≤ 7) :
    ∀ k c, gTreeLookup (makeContextConf st pc).contextTree k = some c →
      0 ≤ c.rb.size ∧ 0 ≤ c.rb.flushLevel ∧ c.rb.flushLevel ≤ 7 := by
  intro k c hk
  cases hl : gTreeLookup st.contextTree pc.name with
  | some c0 =>
    simp only [makeContextConf, hl] at hk
    rw [gTreeLookup_write] at hk
    cases ho : gTreeLookup st.contextTree k with
    | none => rw [ho] at hk; exact absurd hk (by simp)
    | some c1 =>
      rw [ho] at hk
      simp at hk
      by_cases hkk : k = pc.name
      · rw [if_pos hkk] at hk
        subst hk
        exact ⟨hpc.1, hpc.2.1, hpc.2.2⟩
      · rw [if_neg hkk] at hk
        subst hk
        exact hinv k c1 ho
  | none =>
    simp only [makeContextConf, hl] at hk
    cases ht : st.contextTree with
    | none =>
      simp [createContext, gTreeInsert, gTreeWrite, gTreeLookup, ht] at hk
    | some l =>
      have hkl : ctxLookup l pc.name = none := by rw [ht] at hl; exact hl
      simp only [createContext, ht, gTreeInsert, hkl, Option.isSome_none,
        Bool.false_eq_true, if_false] at hk
      rw [gTreeLookup_write] at hk
      simp only [gTreeLookup, ctxLookup_append] at hk
      cases ho : ctxLookup l k with
      | some c1 =>
        rw [ho] at hk
        simp at hk
        by_cases hkk : k = pc.name
        · exact absurd (hkk ▸ ho) (by rw [hkl]; simp)
        · rw [if_neg hkk] at hk
          subst hk
          exact hinv k c1 (by rw [ht]; exact ho)
      | none =>
        rw [ho] at hk
        by_cases hkk : k = pc.name
        · subst hkk
          simp [ctxLookup] at hk
          subst hk
          exact ⟨hpc.1, hpc.2.1, hpc.2.2⟩
        · have hkk2 : ¬pc.name = k := fun e => hkk e.symm
          simp [ctxLookup, hkk2] at hk

theorem processGroup_rb_inv (st : ConfState) (dang : Bool) (g : ConfGroup)
    (hg : bsOkPred g.2 ∧ flOkPred g.2)
    (hinv : ∀ k c, gTreeLookup st.contextTree k = some c →
      0 ≤ c.rb.size ∧ 0 ≤ c.rb.flushLevel ∧ c.rb.flushLevel ≤ 7) :
    ∀ k c, gTreeLookup (processGroup st dang g).1.contextTree k = some c →
      0 ≤ c.rb.size ∧ 0 ≤ c.rb.flushLevel ∧ c.rb.flushLevel ≤ 7 := by
  unfold processGroup
  by_cases h1 : ("OUTPUT=".data).isPrefixOf g.1.data
  · simp only [h1, if_true]
    cases hm : makeOutputConf st.outputs
        (outputParse st.outputs.length ⟨g.1.data.drop 7⟩ g.2).1 with
    | some outs2 => simpa [hm] using hinv
    | none => simpa [hm] using hinv
  · by_cases h2 : ("CONTEXT=".data).isPrefixOf g.1.data
    · simp only [h1, h2, if_true, Bool.false_eq_true, if_false]
      exact makeContextConf_rb_inv st _
        (contextParse_rb_ok st.outputs st.numContexts _ g.2 dang hg.1 hg.2) hinv
    · simpa [h1, h2] using hinv

theorem processGroups_rb_inv (gs : List (String × List (String × String))) :
    ∀ (st : ConfState) (rv dang : Bool),
      (∀ g ∈ gs, bsOkPred g.2 ∧ flOkPred g.2) →
      (∀ k c, gTreeLookup st.contextTree k = some c →
        0 ≤ c.rb.size ∧ 0 ≤ c.rb.flushLevel ∧ c.rb.flushLevel ≤ 7) →
      ∀ k c, gTreeLookup (processGroups st rv dang gs).2.1.contextTree k = some c →
        0 ≤ c.rb.size ∧ 0 ≤ c.rb.flushLevel ∧ c.rb.flushLevel ≤ 7 := by
  induction gs with
  | nil => intro st rv dang _ hinv; exact hinv
  | cons g gs ih =>
    intro st rv dang hgs hinv
    simp only [processGroups]
    by_cases hb : (processGroup st dang g).2.2.1
    · simp only [hb, if_true]
      exact processGroup_rb_inv st dang g (hgs g (by simp)) hinv
    · simp only [hb, Bool.false_eq_true, if_false]
      exact ih _ _ _ (fun g2 hg2 => hgs g2 (by simp [hg2]))
        (processGroup_rb_inv st dang g (hgs g (by simp)) hinv)

/-- C7, amended: the loader stores exactly the parsed BufferSize and
FlushLevel (0 when absent), so for every accepted configuration file whose
BufferSize values all parse to nonnegative sizes and whose FlushLevel values
all name one of the eight severities, every stored context has a ring-buffer
size ≥ 0 and a flush level in 0..7. -/
theorem C7_amended_rb_bounds (kf : List (String × List (String × String)))
    (st : ConfState) (h : readConfFile kf = (true, st))
    (hkf : ∀ g ∈ kf, bsOkPred g.2 ∧ flOkPred g.2) :
    ∀ k c, gTreeLookup st.contextTree k = some c →
      0 ≤ c.rb.size ∧ 0 ≤ c.rb.flushLevel ∧ c.rb.flushLevel ≤ 7 := by
  have hst : (processGroups ⟨[], some [], 0⟩ true false kf).2.1 = st := by
    have := congrArg Prod.snd h
    simpa [readConfFile] using this
  rw [← hst]
  exact processGroups_rb_inv kf ⟨[], some [], 0⟩ true false hkf
    (by intro k c hk; simp [gTreeLookup, ctxLookup] at hk)

/-- C7 witness: a well-formed file with BufferSize=16K and FlushLevel=err
satisfies the amended hypotheses, and its stored <global> ring buffer has a
nonnegative size and a valid flush level. -/
theorem C7_amended_witness :
    0 ≤ (⟨16384, 3⟩ : RBuf).size ∧ 0 ≤ (⟨16384, 3⟩ : RBuf).flushLevel
      ∧ (⟨16384, 3⟩ : RBuf).flushLevel ≤ 7 := by
  have h := C7_amended_rb_bounds
    [("OUTPUT=stdlog", [("File", "/var/log/messages"), ("MaxSize", "1M"), ("Rotations", "1")]),
     ("CONTEXT=<global>",
      [("Rule1", "*.*,stdlog"), ("BufferSize", "16K"), ("FlushLevel", "err")])]
    (readConfFile
      [("OUTPUT=stdlog", [("File", "/var/log/messages"), ("MaxSize", "1M"), ("Rotations", "1")]),
       ("CONTEXT=<global>",
        [("Rule1", "*.*,stdlog"), ("BufferSize", "16K"), ("FlushLevel", "err")])]).2
    (by decide)
    (by
      intro g hg
      fin_cases hg <;> constructor <;> decide)
    "<global>"
    ⟨"<global>", 1, [⟨-1, -1, false, none, 0, false⟩], ⟨16384, 3⟩⟩
    (by decide)
  exact h

/- ------------------------------------------------------------------ -/
/- Decimal parsing lemmas (C9)                                         -/
/- ------------------------------------------------------------------ -/

/-- The characters of decimal digits behave as digits everywhere ParseSize
looks at them: digVal?, isspace, sign characters, the octal marker and the
size-suffix letters. -/
theorem digitCh_props : ∀ d : Nat, d < 10 →
    digVal? 10 (digitCh d) = some d
    ∧ isSpaceCh (digitCh d) = false
    ∧ digitCh d ≠ '-' ∧ digitCh d ≠ '+'
    ∧ (d ≠ 0 → digitCh d ≠ '0')
    ∧ lowerCh (digitCh d) ≠ 'k' ∧ lowerCh (digitCh d) ≠ 'm'
    ∧ lowerCh (digitCh d) ≠ 'b' := by
  decide

theorem getLast?_mem_chars (l : List Char) (a : Char) (h : l.getLast? = some a) :
    a ∈ l := by
  rcases List.eq_nil_or_concat' l with rfl | ⟨pre, b, rfl⟩
  · simp at h
  · rw [List.getLast?_concat] at h
    simp only [Option.some.injEq] at h
    simp [h]

theorem takeDigits_append_digits (base : Nat) (ds : List Char)
    (h : ∀ c ∈ ds, (digVal? base c).isSome) :
    ∀ (rest : List Char) (acc cnt : Nat),
      takeDigits base (ds ++ rest) acc cnt
        = takeDigits base rest (digitsVal base acc ds) (cnt + ds.length) := by
  induction ds with
  | nil => intro rest acc cnt; simp [digitsVal]
  | cons c t ih =>
    intro rest acc cnt
    obtain ⟨d, hd⟩ := Option.isSome_iff_exists.mp (h c (by simp))
    have ht : ∀ x ∈ t, (digVal? base x).isSome := fun x hx => h x (by simp [hx])
    simp only [List.cons_append, takeDigits, hd, List.append_eq]
    rw [ih ht rest (acc * base + d) (cnt + 1)]
    have hfold : digitsVal base acc (c :: t) = digitsVal base (acc * base + d) t := by
      simp [digitsVal, hd]
    rw [hfold]
    simp only [List.length_cons]
    congr 1
    omega

theorem takeDigits_all_digits (base : Nat) (ds : List Char)
    (h : ∀ c ∈ ds, (digVal? base c).isSome) (acc cnt : Nat) :
    takeDigits base ds acc cnt = (digitsVal base acc ds, cnt + ds.length, []) := by
  have := takeDigits_append_digits base ds h [] acc cnt
  simpa [takeDigits] using this

/-- ParseInt on a decimal digit string (no leading zero, value in int
range) returns exactly its positional value. -/
theorem parseInt_digits (ds : List Char) (hne : ds ≠ [])
    (hdig : ∀ c ∈ ds, ∃ d, d < 10 ∧ c = digitCh d)
    (hz : ds.head? ≠ some '0')
    (hb : (digitsVal 10 0 ds : Int) ≤ 2 ^ 31 - 1) :
    parseInt ds = some ((digitsVal 10 0 ds : Int)) := by
  obtain ⟨c, t, rfl⟩ := List.exists_cons_of_ne_nil hne
  obtain ⟨d, hd10, hcd⟩ := hdig c (by simp)
  subst hcd
  have props := digitCh_props d hd10
  have hdigsome : ∀ x ∈ digitCh d :: t, (digVal? 10 x).isSome := by
    intro x hx
    obtain ⟨e, he10, he⟩ := hdig x hx
    subst he
    simp [(digitCh_props e he10).1]
  have e1 : (digitCh d :: t).dropWhile isSpaceCh = digitCh d :: t := by
    rw [List.dropWhile_cons]
    simp [props.2.1]
  have hz3 : digitCh d ≠ '0' := by simpa using hz
  unfold parseInt parseIntCore
  rw [e1]
  simp only [List.head?_cons, Option.some.injEq, props.2.2.1, props.2.2.2.1, hz3,
    or_self, if_false]
  rw [takeDigits_all_digits 10 _ hdigsome 0 0]
  have hnn : (0 : Int) ≤ (digitsVal 10 0 (digitCh d :: t) : Int) := Int.ofNat_nonneg _
  have hrange : ¬((1 : Int) * (digitsVal 10 0 (digitCh d :: t) : Int) < longMin
      ∨ (1 : Int) * (digitsVal 10 0 (digitCh d :: t) : Int) > longMax) := by
    unfold longMin longMax
    omega
  simp only [Nat.zero_add, List.length_cons, Nat.succ_ne_zero, if_false,
    ne_eq, not_true_eq_false, one_mul]
  have hrange2 : ¬((digitsVal 10 0 (digitCh d :: t) : Int) < longMin
      ∨ (digitsVal 10 0 (digitCh d :: t) : Int) > longMax) := by
    unfold longMin longMax
    omega
  rw [if_neg hrange2]
  have hcast : int32cast (digitsVal 10 0 (digitCh d :: t) : Int)
      = (digitsVal 10 0 (digitCh d :: t) : Int) := by
    unfold int32cast
    omega
  simp [hcast]

theorem trimCI_short (s suffix : List Char) (h : s.length < suffix.length) :
    trimSuffixCI s suffix = none := by
  simp [trimSuffixCI, h]

theorem trimCI_match (ds tail suffix : List Char) (hlen : tail.length = suffix.length)
    (hmap : tail.map lowerCh = suffix.map lowerCh) :
    trimSuffixCI (ds ++ tail) suffix = some ds := by
  unfold trimSuffixCI
  have hL : (ds ++ tail).length - suffix.length = ds.length := by
    simp [List.length_append, hlen]
  rw [if_neg (by simp [List.length_append]; omega)]
  rw [hL, List.drop_left, List.take_left, if_pos hmap]

theorem trimCI_last_ne (s suffix : List Char) (hsuf : suffix ≠ [])
    (h : ∀ c c', s.getLast? = some c → suffix.getLast? = some c' →
      lowerCh c ≠ lowerCh c') :
    trimSuffixCI s suffix = none := by
  unfold trimSuffixCI
  by_cases hlen : s.length < suffix.length
  · simp [hlen]
  · rw [if_neg hlen, if_neg]
    intro hmap
    have hreglen : (s.drop (s.length - suffix.length)).length = suffix.length := by
      rw [List.length_drop]
      omega
    have hregne : s.drop (s.length - suffix.length) ≠ [] := by
      intro e
      rw [e] at hreglen
      exact hsuf (List.length_eq_zero.mp hreglen.symm)
    obtain ⟨cs, hcs⟩ : ∃ cs, (s.drop (s.length - suffix.length)).getLast? = some cs := by
      cases hg : (s.drop (s.length - suffix.length)).getLast? with
      | none => exact absurd (List.getLast?_eq_none_iff.mp hg) hregne
      | some c => exact ⟨c, rfl⟩
    obtain ⟨cf, hcf⟩ : ∃ cf, suffix.getLast? = some cf := by
      cases hg : suffix.getLast? with
      | none => exact absurd (List.getLast?_eq_none_iff.mp hg) hsuf
      | some c => exact ⟨c, rfl⟩
    have hslast : s.getLast? = some cs := by
      conv_lhs => rw [← List.take_append_drop (s.length - suffix.length) s]
      rw [List.getLast?_append_of_ne_nil _ hregne]
      exact hcs
    have hmapLast := congrArg List.getLast? hmap
    rw [List.getLast?_map, List.getLast?_map, hcs, hcf] at hmapLast
    simp only [Option.map_some'] at hmapLast
    exact h cs cf hslast hcf (by simpa using hmapLast)

/-- Stripping a letter suffix from a string whose last character is `a` with
a different lowercase form fails. -/
theorem trimCI_concat_ne (ds : List Char) (a : Char) (suffix : List Char)
    (hsuf : suffix ≠ [])
    (h : ∀ c', suffix.getLast? = some c' → lowerCh a ≠ lowerCh c') :
    trimSuffixCI (ds ++ [a]) suffix = none := by
  apply trimCI_last_ne (ds ++ [a]) suffix hsuf
  intro c c' hc hc'
  rw [List.getLast?_concat] at hc
  simp only [Option.some.injEq] at hc
  subst hc
  exact h c' hc'

theorem trimCI_mismatch (ds tail suffix : List Char) (hlen : tail.length = suffix.length)
    (hmap : tail.map lowerCh ≠ suffix.map lowerCh) :
    trimSuffixCI (ds ++ tail) suffix = none := by
  unfold trimSuffixCI
  rw [if_neg (by simp [List.length_append]; omega)]
  have hL : (ds ++ tail).length - suffix.length = ds.length := by
    simp [List.length_append, hlen]
  rw [hL, List.drop_left, if_neg hmap]

/-- ParseInt rejects a digit string followed by a 'K' (the string is not
fully consumed). -/
theorem parseInt_digits_K (ds : List Char) (hne : ds ≠ [])
    (hdig : ∀ c ∈ ds, ∃ d, d < 10 ∧ c = digitCh d)
    (hz : ds.head? ≠ some '0') :
    parseInt (ds ++ ['K']) = none := by
  obtain ⟨c, t, rfl⟩ := List.exists_cons_of_ne_nil hne
  obtain ⟨d, hd10, hcd⟩ := hdig c (by simp)
  subst hcd
  have props := digitCh_props d hd10
  have hdigsome : ∀ x ∈ digitCh d :: t, (digVal? 10 x).isSome := by
    intro x hx
    obtain ⟨e, he10, he⟩ := hdig x hx
    subst he
    simp [(digitCh_props e he10).1]
  have e1 : ((digitCh d :: t) ++ ['K']).dropWhile isSpaceCh
      = (digitCh d :: t) ++ ['K'] := by
    rw [List.cons_append, List.dropWhile_cons]
    simp [props.2.1]
  have hz3 : digitCh d ≠ '0' := by simpa using hz
  unfold parseInt parseIntCore
  rw [e1]
  simp only [List.cons_append, List.head?_cons, Option.some.injEq, props.2.2.1,
    props.2.2.2.1, hz3, or_self, if_false]
  rw [show digitCh d :: (t ++ ['K']) = (digitCh d :: t) ++ ['K'] from rfl,
    takeDigits_append_digits 10 (digitCh d :: t) hdigsome ['K'] 0 0]
  simp [takeDigits, digVal?]

/-- C9: ParseSize strips a K/KB suffix and then, independently, an M/MB
suffix, case-insensitively, the later strip overwriting the multiplier.  On
the decimal string of n (digit characters, no leading zero): suffix K, k,
KB or kb yields n*1024; M, m, MB or mb yields n*1048576; the double suffix
MK is also accepted, yielding n*1048576 (the K is stripped first, then the
M overwrites the multiplier); KM is rejected (the M is stripped but the
remaining "nK" is not an integer). -/
theorem C9_parseSize_suffix_semantics (ds : List Char) (hne : ds ≠ [])
    (hdig : ∀ c ∈ ds, ∃ d, d < 10 ∧ c = digitCh d)
    (hz : ds.head? ≠ some '0') (hlen : ds.length ≤ 29)
    (hval : (digitsVal 10 0 ds : Int) ≤ 2047) :
    parseSize (ds ++ ['K']) = some ((digitsVal 10 0 ds : Int) * 1024)
    ∧ parseSize (ds ++ ['k']) = some ((digitsVal 10 0 ds : Int) * 1024)
    ∧ parseSize (ds ++ ['K', 'B']) = some ((digitsVal 10 0 ds : Int) * 1024)
    ∧ parseSize (ds ++ ['k', 'b']) = some ((digitsVal 10 0 ds : Int) * 1024)
    ∧ parseSize (ds ++ ['M']) = some ((digitsVal 10 0 ds : Int) * 1048576)
    ∧ parseSize (ds ++ ['m']) = some ((digitsVal 10 0 ds : Int) * 1048576)
    ∧ parseSize (ds ++ ['M', 'B']) = some ((digitsVal 10 0 ds : Int) * 1048576)
    ∧ parseSize (ds ++ ['m', 'b']) = some ((digitsVal 10 0 ds : Int) * 1048576)
    ∧ parseSize (ds ++ ['M', 'K']) = some ((digitsVal 10 0 ds : Int) * 1048576)
    ∧ parseSize (ds ++ ['K', 'M']) = none := by
  have hd_last : ∃ pre d, d < 10 ∧ ds = pre ++ [digitCh d] := by
    rcases List.eq_nil_or_concat' ds with rfl | ⟨pre, b, hb⟩
    · exact absurd rfl hne
    · obtain ⟨d, hd, hbd⟩ := hdig b (by rw [hb]; simp)
      exact ⟨pre, d, hd, by rw [hb, hbd]⟩
  have tdigit : ∀ (suffix : List Char) (a : Char), suffix.getLast? = some a →
      (a = 'K' ∨ a = 'B' ∨ a = 'M') → trimSuffixCI ds suffix = none := by
    intro suffix a hga ha
    obtain ⟨pre, d, hd10, hpre⟩ := hd_last
    rw [hpre]
    apply trimCI_concat_ne pre (digitCh d) suffix
      (by intro e; rw [e] at hga; simp at hga)
    intro c' hc'
    rw [hga] at hc'
    injection hc' with hc'
    subst hc'
    have props := digitCh_props d hd10
    rcases ha with rfl | rfl | rfl
    · simpa [show lowerCh 'K' = 'k' by decide] using props.2.2.2.2.2.1
    · simpa [show lowerCh 'B' = 'b' by decide] using props.2.2.2.2.2.2.2
    · simpa [show lowerCh 'M' = 'm' by decide] using props.2.2.2.2.2.2.1
  have hnn : (0 : Int) ≤ (digitsVal 10 0 ds : Int) := Int.ofNat_nonneg _
  have hPI : parseInt ds = some ((digitsVal 10 0 ds : Int)) :=
    parseInt_digits ds hne hdig hz (by omega)
  have hcK : int32cast ((digitsVal 10 0 ds : Int) * 1024)
      = (digitsVal 10 0 ds : Int) * 1024 := by
    unfold int32cast
    omega
  have hcM : int32cast ((digitsVal 10 0 ds : Int) * 1048576)
      = (digitsVal 10 0 ds : Int) * 1048576 := by
    unfold int32cast
    omega
  have hMds : trimSuffixCI ds ['M'] = none := tdigit ['M'] 'M' rfl (by simp)
  have hMBds : trimSuffixCI ds ['M', 'B'] = none := tdigit ['M', 'B'] 'B' rfl (by simp)
  refine ⟨?_, ?_, ?_, ?_, ?_, ?_, ?_, ?_, ?_, ?_⟩
  · -- K
    have hs0 : mystrcpyS 32 (ds ++ ['K']) = ds ++ ['K'] :=
      List.take_of_length_le (by simp; omega)
    simp only [parseSize, hs0, trimCI_match ds ['K'] ['K'] rfl rfl, hMds, hMBds,
      hPI, hcK]
  · -- k
    have hs0 : mystrcpyS 32 (ds ++ ['k']) = ds ++ ['k'] :=
      List.take_of_length_le (by simp; omega)
    simp only [parseSize, hs0, trimCI_match ds ['k'] ['K'] rfl (by decide), hMds,
      hMBds, hPI, hcK]
  · -- KB
    have hs0 : mystrcpyS 32 (ds ++ ['K', 'B']) = ds ++ ['K', 'B'] :=
      List.take_of_length_le (by simp; omega)
    have h1 : trimSuffixCI (ds ++ ['K', 'B']) ['K'] = none := by
      rw [show ds ++ ['K', 'B'] = (ds ++ ['K']) ++ ['B'] by simp]
      exact trimCI_mismatch (ds ++ ['K']) ['B'] ['K'] rfl (by decide)
    simp only [parseSize, hs0, h1, trimCI_match ds ['K', 'B'] ['K', 'B'] rfl rfl,
      hMds, hMBds, hPI, hcK]
  · -- kb
    have hs0 : mystrcpyS 32 (ds ++ ['k', 'b']) = ds ++ ['k', 'b'] :=
      List.take_of_length_le (by simp; omega)
    have h1 : trimSuffixCI (ds ++ ['k', 'b']) ['K'] = none := by
      rw [show ds ++ ['k', 'b'] = (ds ++ ['k']) ++ ['b'] by simp]
      exact trimCI_mismatch (ds ++ ['k']) ['b'] ['K'] rfl (by decide)
    simp only [parseSize, hs0, h1,
      trimCI_match ds ['k', 'b'] ['K', 'B'] rfl (by decide), hMds, hMBds, hPI, hcK]
  · -- M
    have hs0 : mystrcpyS 32 (ds ++ ['M']) = ds ++ ['M'] :=
      List.take_of_length_le (by simp; omega)
    have h1 : trimSuffixCI (ds ++ ['M']) ['K'] = none :=
      trimCI_mismatch ds ['M'] ['K'] rfl (by decide)
    have h2 : trimSuffixCI (ds ++ ['M']) ['K', 'B'] = none :=
      trimCI_concat_ne ds 'M' ['K', 'B'] (by simp)
        (fun c' hc' => by injection hc' with h; subst h; decide)
    simp only [parseSize, hs0, h1, h2, trimCI_match ds ['M'] ['M'] rfl rfl, hPI, hcM]
  · -- m
    have hs0 : mystrcpyS 32 (ds ++ ['m']) = ds ++ ['m'] :=
      List.take_of_length_le (by simp; omega)
    have h1 : trimSuffixCI (ds ++ ['m']) ['K'] = none :=
      trimCI_mismatch ds ['m'] ['K'] rfl (by decide)
    have h2 : trimSuffixCI (ds ++ ['m']) ['K', 'B'] = none :=
      trimCI_concat_ne ds 'm' ['K', 'B'] (by simp)
        (fun c' hc' => by injection hc' with h; subst h; decide)
    simp only [parseSize, hs0, h1, h2, trimCI_match ds ['m'] ['M'] rfl (by decide),
      hPI, hcM]
  · -- MB
    have hs0 : mystrcpyS 32 (ds ++ ['M', 'B']) = ds ++ ['M', 'B'] :=
      List.take_of_length_le (by simp; omega)
    have h1 : trimSuffixCI (ds ++ ['M', 'B']) ['K'] = none := by
      rw [show ds ++ ['M', 'B'] = (ds ++ ['M']) ++ ['B'] by simp]
      exact trimCI_mismatch (ds ++ ['M']) ['B'] ['K'] rfl (by decide)
    have h2 : trimSuffixCI (ds ++ ['M', 'B']) ['K', 'B'] = none :=
      trimCI_mismatch ds ['M', 'B'] ['K', 'B'] rfl (by decide)
    have h3 : trimSuffixCI (ds ++ ['M', 'B']) ['M'] = none := by
      rw [show ds ++ ['M', 'B'] = (ds ++ ['M']) ++ ['B'] by simp]
      exact trimCI_mismatch (ds ++ ['M']) ['B'] ['M'] rfl (by decide)
    simp only [parseSize, hs0, h1, h2, h3,
      trimCI_match ds ['M', 'B'] ['M', 'B'] rfl rfl, hPI, hcM]
  · -- mb
    have hs0 : mystrcpyS 32 (ds ++ ['m', 'b']) = ds ++ ['m', 'b'] :=
      List.take_of_length_le (by simp; omega)
    have h1 : trimSuffixCI (ds ++ ['m', 'b']) ['K'] = none := by
      rw [show ds ++ ['m', 'b'] = (ds ++ ['m']) ++ ['b'] by simp]
      exact trimCI_mismatch (ds ++ ['m']) ['b'] ['K'] rfl (by decide)
    have h2 : trimSuffixCI (ds ++ ['m', 'b']) ['K', 'B'] = none :=
      trimCI_mismatch ds ['m', 'b'] ['K', 'B'] rfl (by decide)
    have h3 : trimSuffixCI (ds ++ ['m', 'b']) ['M'] = none := by
      rw [show ds ++ ['m', 'b'] = (ds ++ ['m']) ++ ['b'] by simp]
      exact trimCI_mismatch (ds ++ ['m']) ['b'] ['M'] rfl (by decide)
    simp only [parseSize, hs0, h1, h2, h3,
      trimCI_match ds ['m', 'b'] ['M', 'B'] rfl (by decide), hPI, hcM]
  · -- MK
    have hs0 : mystrcpyS 32 (ds ++ ['M', 'K']) = ds ++ ['M', 'K'] :=
      List.take_of_length_le (by simp; omega)
    have h1 : trimSuffixCI (ds ++ ['M', 'K']) ['K'] = some (ds ++ ['M']) := by
      rw [show ds ++ ['M', 'K'] = (ds ++ ['M']) ++ ['K'] by simp]
      exact trimCI_match (ds ++ ['M']) ['K'] ['K'] rfl rfl
    simp only [parseSize, hs0, h1, trimCI_match ds ['M'] ['M'] rfl rfl, hPI, hcM]
  · -- KM
    have hs0 : mystrcpyS 32 (ds ++ ['K', 'M']) = ds ++ ['K', 'M'] :=
      List.take_of_length_le (by simp; omega)
    have h1 : trimSuffixCI (ds ++ ['K', 'M']) ['K'] = none := by
      rw [show ds ++ ['K', 'M'] = (ds ++ ['K']) ++ ['M'] by simp]
      exact trimCI_mismatch (ds ++ ['K']) ['M'] ['K'] rfl (by decide)
    have h2 : trimSuffixCI (ds ++ ['K', 'M']) ['K', 'B'] = none :=
      trimCI_mismatch ds ['K', 'M'] ['K', 'B'] rfl (by decide)
    have h3 : trimSuffixCI (ds ++ ['K', 'M']) ['M'] = some (ds ++ ['K']) := by
      rw [show ds ++ ['K', 'M'] = (ds ++ ['K']) ++ ['M'] by simp]
      exact trimCI_match (ds ++ ['K']) ['M'] ['M'] rfl rfl
    have h4 : parseInt (ds ++ ['K']) = none := parseInt_digits_K ds hne hdig hz
    simp only [parseSize, hs0, h1, h2, h3, h4]

/-- C9 witness: for n = 5, "5K" parses to 5120, the double suffix "5MK" to
5242880, and "5KM" is rejected. -/
theorem C9_witness :
    parseSize ("5".data ++ ['K']) = some ((digitsVal 10 0 "5".data : Int) * 1024)
    ∧ parseSize ("5".data ++ ['M', 'K'])
        = some ((digitsVal 10 0 "5".data : Int) * 1048576)
    ∧ parseSize ("5".data ++ ['K', 'M']) = none := by
  have h := C9_parseSize_suffix_semantics "5".data (by decide) (by decide)
    (by decide) (by decide) (by decide)
  exact ⟨h.1, h.2.2.2.2.2.2.2.2.1, h.2.2.2.2.2.2.2.2.2⟩

/- ------------------------------------------------------------------ -/
/- C10: mystrcpy bounds and silent name truncation                     -/
/- ------------------------------------------------------------------ -/

/-- Setting the element right after a prefix writes into the suffix. -/
theorem set_append_of_length {α : Type} (l₁ l₂ : List α) (n : Nat) (a : α)
    (h : l₁.length = n) : (l₁ ++ l₂).set n a = l₁ ++ l₂.set 0 a := by
  subst h
  induction l₁ with
  | nil => rfl
  | cons x xs ih => simp [List.set, ih]

/-- Dropping past a prefix drops from the suffix. -/
theorem drop_append_of_le {α : Type} (l₁ l₂ : List α) (n : Nat)
    (h : l₁.length ≤ n) : (l₁ ++ l₂).drop n = l₂.drop (n - l₁.length) := by
  induction l₁ generalizing n with
  | nil => simp
  | cons x xs ih =>
    cases n with
    | zero => simp at h
    | succ m =>
      simp only [List.cons_append, List.drop_succ_cons, List.length_cons]
      rw [ih m (by simpa using h)]
      congr 1
      omega

/-- Setting index 0 does not affect a drop of at least one element. -/
theorem drop_set_zero {α : Type} (l : List α) (a : α) (n : Nat) (h : 1 ≤ n) :
    (l.set 0 a).drop n = l.drop n := by
  cases l with
  | nil => rfl
  | cons x xs =>
    cases n with
    | zero => exact absurd h (by omega)
    | succ m => rfl

/-- takeWhile runs through a prefix all of whose elements satisfy p. -/
theorem takeWhile_append_all {α : Type} (p : α → Bool) (l₁ l₂ : List α)
    (h : ∀ a ∈ l₁, p a = true) :
    (l₁ ++ l₂).takeWhile p = l₁ ++ l₂.takeWhile p := by
  induction l₁ with
  | nil => rfl
  | cons x xs ih =>
    have hx : p x = true := h x (by simp)
    simp only [List.cons_append, List.takeWhile_cons, hx, if_true]
    rw [ih (fun a ha => h a (by simp [ha]))]

/-- The C string stored by a NUL-free prefix followed by a NUL is that
prefix. -/
theorem cStr_append_nul (A rest : List Char) (h : nulChar ∉ A) :
    cStr (A ++ nulChar :: rest) = A := by
  simp only [cStr]
  rw [takeWhile_append_all]
  · simp [List.takeWhile_cons]
  · intro a ha
    simp only [ne_eq, decide_eq_true_eq]
    exact fun hEq => h (hEq ▸ ha)

/-- C10: for every destination buffer holding at least dstSize ≥ 1 bytes,
mystrcpy stays inside the first dstSize bytes — the buffer keeps its length
and every byte from offset dstSize on is untouched — and leaves the
destination NUL-terminated: the buffer becomes src truncated to dstSize - 1
characters, then a NUL, then old bytes, so the stored C string is exactly
`mystrcpyS dstSize src` = src.take (dstSize - 1), of length ≤ dstSize - 1.
Consequently ParseOutputInit (buffer PMLOG_OUTPUT_MAX_NAME_LENGTH + 1 = 33)
and ParseContextInit (buffer PMLOG_MAX_CONTEXT_NAME_LEN + 1 = 32), applied
to any non-first group, still succeed on an over-long name and silently
truncate it to 32 resp. 31 characters instead of rejecting the section. -/
theorem C10_mystrcpy_truncates :
    (∀ (dst src : List Char) (dstSize : Nat),
      1 ≤ dstSize → dstSize ≤ dst.length → nulChar ∉ src →
        (mystrcpy dst dstSize src).length = dst.length
        ∧ (mystrcpy dst dstSize src).drop dstSize = dst.drop dstSize
        ∧ (∃ rest : List Char,
            mystrcpy dst dstSize src = mystrcpyS dstSize src ++ nulChar :: rest)
        ∧ cStr (mystrcpy dst dstSize src) = mystrcpyS dstSize src
        ∧ (mystrcpyS dstSize src).length ≤ dstSize - 1)
    ∧ (∀ (n : Nat) (name : String), n ≠ 0 →
        (parseOutputInit n name).1 = true
        ∧ (parseOutputInit n name).2.name.data
            = name.data.take pmlogOutputMaxNameLength)
    ∧ (∀ (n : Nat) (name : String), n ≠ 0 →
        (parseContextInit n name).1 = true
        ∧ (parseContextInit n name).2.name.data
            = name.data.take pmlogMaxContextNameLen) := by
  refine ⟨?_, ?_, ?_⟩
  · intro dst src dstSize h1 hle hnul
    have hlt : ¬ dstSize < 1 := by omega
    have hsrc : min src.length (dstSize - 1) ≤ src.length := Nat.min_le_left _ _
    have hsz : min src.length (dstSize - 1) ≤ dstSize - 1 := Nat.min_le_right _ _
    have hAlen : (src.take (min src.length (dstSize - 1))).length
        = min src.length (dstSize - 1) := by
      rw [List.length_take]
      exact Nat.min_eq_left hsrc
    have hmy : mystrcpy dst dstSize src
        = src.take (min src.length (dstSize - 1))
          ++ ((dst.set 0 nulChar).drop (min src.length (dstSize - 1))).set 0 nulChar := by
      simp only [mystrcpy, if_neg hlt]
      exact set_append_of_length _ _ _ _ hAlen
    have hBlen : (((dst.set 0 nulChar).drop (min src.length (dstSize - 1))).set 0 nulChar).length
        = dst.length - min src.length (dstSize - 1) := by
      rw [List.length_set, List.length_drop, List.length_set]
    have hAeq : src.take (min src.length (dstSize - 1)) = src.take (dstSize - 1) := by
      rcases Nat.le_total src.length (dstSize - 1) with h | h
      · rw [Nat.min_eq_left h, List.take_length, List.take_of_length_le h]
      · rw [Nat.min_eq_right h]
    refine ⟨?_, ?_, ?_⟩
    · rw [hmy, List.length_append, hAlen, hBlen]
      omega
    · rw [hmy, drop_append_of_le _ _ _ (by omega : (src.take (min src.length (dstSize - 1))).length ≤ dstSize)]
      rw [hAlen, drop_set_zero _ _ _ (by omega), List.drop_drop]
      rw [show min src.length (dstSize - 1) + (dstSize - min src.length (dstSize - 1)) = dstSize from by omega]
      exact drop_set_zero _ _ _ h1
    · have hBpos : 0 < ((dst.set 0 nulChar).drop (min src.length (dstSize - 1))).length := by
        rw [List.length_drop, List.length_set]
        omega
      rcases hB : (dst.set 0 nulChar).drop (min src.length (dstSize - 1)) with _ | ⟨b, bs⟩
      · rw [hB] at hBpos
        exact absurd hBpos (by simp)
      · rw [hB] at hmy
        have hmy2 : mystrcpy dst dstSize src
            = mystrcpyS dstSize src ++ nulChar :: bs := by
          rw [hmy]
          simp only [mystrcpyS]
          rw [← hAeq]
          rfl
        refine ⟨⟨bs, hmy2⟩, ?_, ?_⟩
        · rw [hmy2]
          exact cStr_append_nul _ _
            (fun hmem => hnul (List.take_subset _ _ hmem))
        · simp only [mystrcpyS, List.length_take]
          omega
  · intro n name hn
    constructor
    · simp [parseOutputInit, hn]
    · simp [parseOutputInit, hn, mystrcpyS, pmlogOutputMaxNameLength]
  · intro n name hn
    constructor
    · simp [parseContextInit, hn]
    · simp [parseContextInit, hn, mystrcpyS, pmlogMaxContextNameLen]

/-- C10 witness: copying "abcd" into a 3-byte window of a 5-byte buffer keeps
bytes 3.. untouched and stores the C string "ab"; a 42-character output name
and a 40-character context name are accepted by the (non-first) group inits,
truncated to 32 resp. 31 characters. -/
theorem C10_witness :
    (mystrcpy ['x', 'x', 'x', 'x', 'x'] 3 ['a', 'b', 'c', 'd']).drop 3
        = (['x', 'x', 'x', 'x', 'x'] : List Char).drop 3
    ∧ cStr (mystrcpy ['x', 'x', 'x', 'x', 'x'] 3 ['a', 'b', 'c', 'd'])
        = mystrcpyS 3 ['a', 'b', 'c', 'd']
    ∧ (parseOutputInit 1 "an-output-name-of-exactly-42-characters-xx").1 = true
    ∧ (parseOutputInit 1 "an-output-name-of-exactly-42-characters-xx").2.name.data
        = "an-output-name-of-exactly-42-characters-xx".data.take pmlogOutputMaxNameLength
    ∧ (parseContextInit 1 "a-context-name-of-40-characters-in-total").1 = true
    ∧ (parseContextInit 1 "a-context-name-of-40-characters-in-total").2.name.data
        = "a-context-name-of-40-characters-in-total".data.take pmlogMaxContextNameLen := by
  have ha := C10_mystrcpy_truncates.1 ['x', 'x', 'x', 'x', 'x'] ['a', 'b', 'c', 'd'] 3
    (by decide) (by decide) (by decide)
  have hb := C10_mystrcpy_truncates.2.1 1 "an-output-name-of-exactly-42-characters-xx"
    (by decide)
  have hc := C10_mystrcpy_truncates.2.2 1 "a-context-name-of-40-characters-in-total"
    (by decide)
  exact ⟨ha.2.1, ha.2.2.2.1, hb.1, hb.2, hc.1, hc.2⟩
